import Mathlib

/-!
Verification development for the tool-provisioning pipeline of
`src/agents/pi-tools.ts` (openclaw). The TypeScript source is shallowly
embedded: JS objects become association lists over a `Json` value type,
optional values become `Option`, thrown errors become `Except`, and the
external collaborators (mime detection, schema scrubbing for Gemini, the
base coding-tool catalog, agent-id resolution, ...) become explicit
function parameters, so every theorem quantifies over their behavior.
-/

set_option maxHeartbeats 1000000

namespace PiTools

/-- JS values as they flow through the schema-manipulation code.
Numbers are modelled as integers (the schemas under merge carry only
literal enum values); `typeof` and truthiness are modelled explicitly. -/
inductive Json where
  | null
  | bool (b : Bool)
  | num (n : Int)
  | str (s : String)
  | arr (elems : List Json)
  | obj (fields : List (String × Json))
deriving Repr

mutual

/-- Structural equality on `Json` (models SameValueZero on the literal
values the schema code compares). -/
def Json.beq : Json → Json → Bool
  | .null, .null => true
  | .bool a, .bool b => a == b
  | .num a, .num b => a == b
  | .str a, .str b => a == b
  | .arr a, .arr b => Json.beqList a b
  | .obj a, .obj b => Json.beqFields a b
  | _, _ => false

/-- Pointwise `Json.beq` on lists. -/
def Json.beqList : List Json → List Json → Bool
  | [], [] => true
  | x :: xs, y :: ys => Json.beq x y && Json.beqList xs ys
  | _, _ => false

/-- Pointwise `Json.beq` on keyed fields. -/
def Json.beqFields : List (String × Json) → List (String × Json) → Bool
  | [], [] => true
  | (k, v) :: xs, (k', v') :: ys => k == k' && Json.beq v v' && Json.beqFields xs ys
  | _, _ => false

end

mutual

theorem Json.eq_of_beq : ∀ (a b : Json), Json.beq a b = true → a = b
  | .null, b, h => by cases b <;> simp_all [Json.beq]
  | .bool x, b, h => by cases b <;> simp_all [Json.beq]
  | .num x, b, h => by cases b <;> simp_all [Json.beq]
  | .str x, b, h => by cases b <;> simp_all [Json.beq]
  | .arr xs, b, h => by
      cases b <;> simp_all [Json.beq]
      exact Json.eqList_of_beq xs _ h
  | .obj fs, b, h => by
      cases b <;> simp_all [Json.beq]
      exact Json.eqFields_of_beq fs _ h

theorem Json.eqList_of_beq : ∀ (a b : List Json), Json.beqList a b = true → a = b
  | [], b, h => by cases b <;> simp_all [Json.beqList]
  | x :: xs, b, h => by
      cases b with
      | nil => simp_all [Json.beqList]
      | cons y ys =>
        simp only [Json.beqList, Bool.and_eq_true] at h
        rw [Json.eq_of_beq x y h.1, Json.eqList_of_beq xs ys h.2]

theorem Json.eqFields_of_beq :
    ∀ (a b : List (String × Json)), Json.beqFields a b = true → a = b
  | [], b, h => by cases b <;> simp_all [Json.beqFields]
  | (k, v) :: xs, b, h => by
      cases b with
      | nil => simp_all [Json.beqFields]
      | cons y ys =>
        obtain ⟨k', v'⟩ := y
        simp only [Json.beqFields, Bool.and_eq_true, beq_iff_eq] at h
        rw [h.1.1, Json.eq_of_beq v v' h.1.2, Json.eqFields_of_beq xs ys h.2]

end

mutual

theorem Json.beq_rfl : ∀ (a : Json), Json.beq a a = true
  | .null => rfl
  | .bool _ => by simp [Json.beq]
  | .num _ => by simp [Json.beq]
  | .str _ => by simp [Json.beq]
  | .arr xs => by simpa [Json.beq] using Json.beqList_rfl xs
  | .obj fs => by simpa [Json.beq] using Json.beqFields_rfl fs

theorem Json.beqList_rfl : ∀ (a : List Json), Json.beqList a a = true
  | [] => rfl
  | x :: xs => by
      simp only [Json.beqList, Bool.and_eq_true]
      exact ⟨Json.beq_rfl x, Json.beqList_rfl xs⟩

theorem Json.beqFields_rfl : ∀ (a : List (String × Json)), Json.beqFields a a = true
  | [] => rfl
  | (k, v) :: xs => by
      simp only [Json.beqFields, Bool.and_eq_true, beq_iff_eq]
      exact ⟨⟨trivial, Json.beq_rfl v⟩, Json.beqFields_rfl xs⟩

end

theorem Json.beq_iff_eq (a b : Json) : Json.beq a b = true ↔ a = b :=
  ⟨Json.eq_of_beq a b, fun h => h ▸ Json.beq_rfl a⟩

instance : DecidableEq Json := fun a b =>
  decidable_of_iff (Json.beq a b = true) (Json.beq_iff_eq a b)

/-- JS `typeof` (arrays and `null` report `"object"`). -/
def jsTypeof : Json → String
  | .null => "object"
  | .bool _ => "boolean"
  | .num _ => "number"
  | .str _ => "string"
  | .arr _ => "object"
  | .obj _ => "object"

/-- JS truthiness of a value. -/
def Json.truthy : Json → Bool
  | .null => false
  | .bool b => b
  | .num n => n != 0
  | .str s => !s.isEmpty
  | .arr _ => true
  | .obj _ => true

/-- First-match association-list lookup (JS objects have unique keys, so
this models property access). -/
def alookup {β : Type} : List (String × β) → String → Option β
  | [], _ => none
  | (k, v) :: rest, key => if k = key then some v else alookup rest key

/-- JS property access `record[key]`: named lookup on an object; any named
property of an array or primitive is `undefined` (`none`). -/
def Json.getField : Json → String → Option Json
  | .obj fields, k => alookup fields k
  | _, _ => none

/-- `Object.entries`: fields of an object in insertion order; index-keyed
entries for an array; empty for primitives. -/
def Json.entriesRecord : Json → List (String × Json)
  | .obj fields => fields
  | .arr elems => (elems.enum.map fun (i, e) => (toString i, e))
  | _ => []

/-- `key in record` presence test. -/
def Json.hasField (j : Json) (k : String) : Bool :=
  (j.getField k).isSome

/-- Spread-update `{...o, k: v}`: replace in place when the key exists,
append otherwise (JS insertion-order semantics). -/
def setField (fields : List (String × Json)) (k : String) (v : Json) :
    List (String × Json) :=
  if (alookup fields k).isSome then
    fields.map fun (k', v') => if k' = k then (k', v) else (k', v')
  else fields ++ [(k, v)]

/-- `Array.from(new Set(xs))`: deduplicate keeping first occurrences in
order. (JS `Set` uses SameValueZero; for the literal enum values handled
here that is structural equality.) -/
def dedupFirst {α : Type} [DecidableEq α] (xs : List α) : List α :=
  xs.foldl (fun acc v => if v ∈ acc then acc else acc ++ [v]) []

/-! JS string operations, modelled over the character list of a `String`
(ASCII-faithful: the names, mime types and config entries compared by the
source are ASCII). -/

/-- Whitespace recognized by `trim`. -/
def jsWhitespaceChar (c : Char) : Bool := c = ' ' || c = '\t' || c = '\n' || c = '\r'

/-- JS `String.prototype.trim()`. -/
def jsTrim (s : String) : String :=
  ⟨((s.data.dropWhile jsWhitespaceChar).reverse.dropWhile jsWhitespaceChar).reverse⟩

/-- ASCII lower-casing of one character. -/
def jsCharLower (c : Char) : Char :=
  if 65 ≤ c.toNat ∧ c.toNat ≤ 90 then Char.ofNat (c.toNat + 32) else c

/-- JS `String.prototype.toLowerCase()` (ASCII fragment). -/
def jsToLower (s : String) : String := ⟨s.data.map jsCharLower⟩

/-- JS `String.prototype.startsWith(p)`. -/
def jsStartsWith (s p : String) : Bool := p.data.isPrefixOf s.data

/-- JS `String.prototype.endsWith(p)`. -/
def jsEndsWith (s p : String) : Bool := p.data.isSuffixOf s.data

/-- JS `String.prototype.slice(0, n)`. -/
def jsTake (s : String) (n : Nat) : String := ⟨s.data.take n⟩

/-- JS `String.prototype.includes("/")`, specialized to one character. -/
def jsIncludesChar (s : String) (c : Char) : Bool := s.data.contains c

/-- JS `String.prototype.length` (code units = characters on ASCII). -/
def jsLength (s : String) : Nat := s.data.length

/-- JS string truthiness / `!s` negated. -/
def jsStrTruthy (s : String) : Bool := !(s = "")

/-! ### Tool, result and error models -/

/-- A thrown JS `Error`: its `name` and `message` (`throwAbortError` sets
`name = "AbortError"`). -/
structure JsError where
  name : String
  message : String
deriving Repr, DecidableEq

/-- The error thrown by `throwAbortError()`. -/
def throwAbortErrorValue : JsError := { name := "AbortError", message := "Aborted" }

/-- An `AbortSignal` observed at one instant: only its `aborted` flag
matters to the code under verification. A derived signal
(`AbortSignal.any` / the `AbortController` fallback) is modelled by the
disjunction of its sources' flags. -/
structure AbortSignal where
  aborted : Bool
deriving Repr, DecidableEq

/-- One content block of a tool result: tagged `text` or `image` variants
(matching the blocks `normalizeReadImageResult` inspects) or an arbitrary
other block that the code passes through. -/
inductive ContentBlock where
  | text (text : String)
  | image (data : String) (mimeType : String)
  | other (payload : Json)
deriving Repr, DecidableEq

/-- An `AgentToolResult`: its ordered content blocks. (Further fields of
the TypeScript type are spread through unchanged by every function
modelled here, so they are not represented.) -/
structure AgentToolResult where
  content : List ContentBlock
deriving Repr, DecidableEq

/-- A tool's `execute` entry point: tool-call id, parameters, and the
per-call abort signal, returning a result or a thrown error. (The
`onUpdate` callback is an opaque passthrough and is not modelled.) -/
def ExecFun : Type := String → Json → Option AbortSignal → Except JsError AgentToolResult

/-- An `AgentTool`: name, parameter schema and `execute`. `execute` is
optional to model the defensive `if (!execute)` check in
`wrapToolWithAbortSignal`. -/
structure AgentTool where
  name : String
  parameters : Option Json := none
  execute : Option ExecFun := none

/-- Calling a possibly-undefined `execute` (a `TypeError` in JS). -/
def runExec (e : Option ExecFun) : ExecFun := fun id p s =>
  match e with
  | some f => f id p s
  | none => .error { name := "TypeError", message := "execute is not a function" }

/-! ### Tool-name normalization and policy checks
(`pi-tools.ts` lines 294-411) -/

/-- `TOOL_NAME_ALIASES`: legacy names mapped to canonical ones. -/
def TOOL_NAME_ALIASES : List (String × String) :=
  [("bash", "exec"), ("apply-patch", "apply_patch")]

/-- `normalizeToolName`: trim, lower-case, then the alias table. -/
def normalizeToolName (name : String) : String :=
  let normalized := jsToLower (jsTrim name)
  (alookup TOOL_NAME_ALIASES normalized).getD normalized

/-- `normalizeToolNames`: normalize each entry and drop falsy (empty)
results; a missing list gives `[]`. -/
def normalizeToolNames (list : Option (List String)) : List String :=
  match list with
  | none => []
  | some l => (l.map normalizeToolName).filter fun s => jsStrTruthy s

/-- `SandboxToolPolicy`: optional allow and deny lists. A field that the
configuration leaves out, or that is not an array, is `none`. -/
structure SandboxToolPolicy where
  allow : Option (List String) := none
  deny : Option (List String) := none
deriving Repr, DecidableEq

/-- `isToolAllowedByPolicyName`: deny wins; an empty (normalized) allow
list means default-allow; `apply_patch` also passes when `exec` is
allowed. -/
def isToolAllowedByPolicyName (name : String) (policy : Option SandboxToolPolicy) : Bool :=
  match policy with
  | none => true
  | some policy =>
    let deny := normalizeToolNames policy.deny
    let allowRaw := normalizeToolNames policy.allow
    let normalized := normalizeToolName name
    if deny.contains normalized then false
    else if allowRaw.length > 0 then
      if allowRaw.contains normalized then true
      else if normalized = "apply_patch" && allowRaw.contains "exec" then true
      else false
    else true

/-- `filterToolsByPolicy`. -/
def filterToolsByPolicy (tools : List AgentTool) (policy : Option SandboxToolPolicy) :
    List AgentTool :=
  match policy with
  | none => tools
  | some _ => tools.filter fun tool => isToolAllowedByPolicyName tool.name policy

/-- `isToolAllowedByPolicies`: logical AND over independent policies. -/
def isToolAllowedByPolicies (name : String) (policies : List (Option SandboxToolPolicy)) :
    Bool :=
  policies.all fun policy => isToolAllowedByPolicyName name policy

/-- `DEFAULT_SUBAGENT_TOOL_DENY`. -/
def DEFAULT_SUBAGENT_TOOL_DENY : List String :=
  ["sessions_list", "sessions_history", "sessions_send", "sessions_spawn"]

/-- `isOpenAIProvider`: the fixed provider allow-list for apply_patch. -/
def isOpenAIProvider (provider : Option String) : Bool :=
  match provider with
  | none => false
  | some p =>
    let normalized := jsToLower (jsTrim p)
    normalized = "openai" || normalized = "openai-codex"

/-- Parameters of `isApplyPatchAllowedForModel`. -/
structure ApplyPatchModelParams where
  modelProvider : Option String := none
  modelId : Option String := none
  allowModels : Option (List String) := none

/-- The `provider/id` form compared by `isApplyPatchAllowedForModel`
(lines computing `normalizedFull`): prefix the provider only when it is
truthy and the id does not already contain a slash. -/
def applyPatchFullModelId (modelProvider : Option String) (modelId : String) : String :=
  let normalizedModelId := jsToLower (jsTrim modelId)
  let provider := (modelProvider.map fun s => jsToLower (jsTrim s))
  let providerTruthy := match provider with
    | some pr => jsStrTruthy pr
    | none => false
  if providerTruthy && !jsIncludesChar normalizedModelId '/' then
    provider.getD "" ++ "/" ++ normalizedModelId
  else normalizedModelId

/-- `isApplyPatchAllowedForModel`: an empty or missing allow-list imposes
no restriction; otherwise the trimmed, lower-cased model id must match an
entry as a bare id or in `provider/id` form. -/
def isApplyPatchAllowedForModel (params : ApplyPatchModelParams) : Bool :=
  let allowModels := params.allowModels.getD []
  if allowModels.length = 0 then true
  else
    match params.modelId.map jsTrim with
    | none => false
    | some modelId =>
      if modelId = "" then false
      else
        let normalizedModelId := jsToLower modelId
        let normalizedFull := applyPatchFullModelId params.modelProvider modelId
        allowModels.any fun entry =>
          let normalized := jsToLower (jsTrim entry)
          if !jsStrTruthy normalized then false
          else normalized = normalizedModelId || normalized = normalizedFull

/-! ### Configuration model
The fragments of `ClawdbotConfig` that `pi-tools.ts` reads. A field whose
configured value is missing or not of the expected shape is `none`
(matching the `Array.isArray` / optional-chaining guards in the source). -/

/-- `config.tools.exec.applyPatch`. -/
structure ApplyPatchCfg where
  enabled : Option Bool := none
  allowModels : Option (List String) := none
deriving Repr

/-- `config.tools.exec`. -/
structure ExecCfg where
  applyPatch : Option ApplyPatchCfg := none
deriving Repr

/-- `config.tools.subagents`. -/
structure SubagentsCfg where
  tools : Option SandboxToolPolicy := none
deriving Repr

/-- `config.tools`: the global allow/deny policy plus nested sections. -/
structure ToolsCfg where
  allow : Option (List String) := none
  deny : Option (List String) := none
  subagents : Option SubagentsCfg := none
  exec : Option ExecCfg := none
deriving Repr

/-- The allow/deny projection of the global tools section (the shape
`resolveEffectiveToolPolicy` hands to the policy filter). -/
def ToolsCfg.toPolicy (t : ToolsCfg) : SandboxToolPolicy :=
  { allow := t.allow, deny := t.deny }

/-- Per-agent configuration as returned by `resolveAgentConfig`
(collaborator in `agent-scope.ts`): only its `tools` policy is read. -/
structure AgentConfig where
  tools : Option SandboxToolPolicy := none
deriving Repr

/-- `ClawdbotConfig`: only the `tools` section is read here. -/
structure ClawdbotConfig where
  tools : Option ToolsCfg := none
deriving Repr

/-- `resolveSubagentToolPolicy`: fixed baseline denies plus configured
extras; allow passed through when configured as an array. -/
def resolveSubagentToolPolicy (cfg : Option ClawdbotConfig) : SandboxToolPolicy :=
  let configured := (((cfg.bind fun c => c.tools).bind fun t => t.subagents).bind
    fun s => s.tools)
  let deny := DEFAULT_SUBAGENT_TOOL_DENY ++
    ((configured.bind fun c => c.deny).getD [])
  let allow := configured.bind fun c => c.allow
  { allow := allow, deny := some deny }

/-- The agent id derived from the session key, guarded by the JS
truthiness checks of `resolveEffectiveToolPolicy` (an empty session key is
falsy). The resolver itself lives in `routing/session-key.ts` and
`agents/agent-scope.ts` (external collaborators), so it is a parameter. -/
def resolvedAgentId (resolveAgentIdFromSessionKey : String → Option String)
    (sessionKey : Option String) : Option String :=
  match sessionKey with
  | some key => if key = "" then none else resolveAgentIdFromSessionKey key
  | none => none

/-- The per-agent config consulted by `resolveEffectiveToolPolicy`:
present only when both a config and a truthy agent id exist. -/
def resolvedAgentConfig (resolveAgentIdFromSessionKey : String → Option String)
    (resolveAgentConfig : ClawdbotConfig → String → Option AgentConfig)
    (config : Option ClawdbotConfig) (sessionKey : Option String) : Option AgentConfig :=
  match config, resolvedAgentId resolveAgentIdFromSessionKey sessionKey with
  | some cfg, some agentId =>
    if agentId = "" then none else resolveAgentConfig cfg agentId
  | _, _ => none

/-- `resolveEffectiveToolPolicy`: the per-agent tools policy is used
exclusively when it defines an allow or deny array; otherwise the global
policy. Returns `(agentId, policy)`. -/
def resolveEffectiveToolPolicy (resolveAgentIdFromSessionKey : String → Option String)
    (resolveAgentConfig : ClawdbotConfig → String → Option AgentConfig)
    (config : Option ClawdbotConfig) (sessionKey : Option String) :
    Option String × Option SandboxToolPolicy :=
  let agentId := resolvedAgentId resolveAgentIdFromSessionKey sessionKey
  let agentConfig := resolvedAgentConfig resolveAgentIdFromSessionKey
    resolveAgentConfig config sessionKey
  let agentTools := agentConfig.bind fun c => c.tools
  let hasAgentToolPolicy := match agentTools with
    | some t => t.allow.isSome || t.deny.isSome
    | none => false
  let globalTools := (config.bind fun c => c.tools).map ToolsCfg.toPolicy
  (agentId, if hasAgentToolPolicy then agentTools else globalTools)

/-! ### Image-result correction
(`sniffMimeFromBase64`, `rewriteReadImageHeader`, `normalizeReadImageResult`) -/

/-- `sniffMimeFromBase64`: decode at most 256 base64 characters of the
trimmed payload (rounded down to a multiple of 4, at least 8) and sniff
them. `decode` models `Buffer.from(_, "base64")`, `detect` models the
external `detectMime`; a decode or detection failure (the `catch`) and an
inconclusive detection are both `none`. -/
def sniffMimeFromBase64 (decode : String → Option (List Nat))
    (detect : List Nat → Option String) (base64 : String) : Option String :=
  let trimmed := jsTrim base64
  if trimmed = "" then none
  else
    let takeN := min 256 (jsLength trimmed)
    let sliceLen := takeN - takeN % 4
    if sliceLen < 8 then none
    else
      match decode (jsTake trimmed sliceLen) with
      | none => none
      | some head => detect head

/-- `rewriteReadImageHeader`: rewrite the fixed
`Read image file [...]` header produced by the upstream read tool. -/
def rewriteReadImageHeader (text mimeType : String) : String :=
  if jsStartsWith text "Read image file [" && jsEndsWith text "]" then
    "Read image file [" ++ mimeType ++ "]"
  else text

/-- The first content block that is an image with string `data` and
`mimeType` (the `content.find` call), as its payload and declared type. -/
def findFirstImage : List ContentBlock → Option (String × String)
  | [] => none
  | .image data mime :: _ => some (data, mime)
  | _ :: rest => findFirstImage rest

/-- The per-block rewrite applied when the sniffed type wins: image blocks
get the sniffed `mimeType`, text blocks get their header rewritten. -/
def correctBlock (sniffed : String) : ContentBlock → ContentBlock
  | .image data _ => .image data sniffed
  | .text t => .text (rewriteReadImageHeader t sniffed)
  | b => b

/-- `normalizeReadImageResult`: re-sniff the image payload of a read
result and correct or reject it. -/
def normalizeReadImageResult (decode : String → Option (List Nat))
    (detect : List Nat → Option String) (result : AgentToolResult)
    (filePath : String) : Except JsError AgentToolResult :=
  let content := result.content
  match findFirstImage content with
  | none => .ok result
  | some (data, mimeType) =>
    if jsTrim data = "" then
      .error { name := "Error", message := s!"read: image payload is empty ({filePath})" }
    else
      match sniffMimeFromBase64 decode detect data with
      | none => .ok result
      | some sniffed =>
        if !jsStartsWith sniffed "image/" then
          .error ⟨"Error",
            s!"read: file looks like {sniffed} but was treated as {mimeType} ({filePath})"⟩
        else if sniffed = mimeType then .ok result
        else .ok { result with content := content.map (correctBlock sniffed) }

/-! ### Cancellation binding
(`throwAbortError`, `combineAbortSignals`, `wrapToolWithAbortSignal`) -/

/-- `combined?.aborted` on an optional signal. -/
def optAborted (s : Option AbortSignal) : Bool :=
  match s with
  | some sig => sig.aborted
  | none => false

/-- `combineAbortSignals`: keep a lone signal; prefer an already-aborted
one; otherwise derive a signal that fires when either fires
(`AbortSignal.any` or the `AbortController` fallback — at combination time
its flag is the disjunction of the sources' flags). -/
def combineAbortSignals (a b : Option AbortSignal) : Option AbortSignal :=
  match a, b with
  | none, none => none
  | some a, none => some a
  | none, some b => some b
  | some a, some b =>
    if a.aborted then some a
    else if b.aborted then some b
    else some { aborted := a.aborted || b.aborted }

/-- `wrapToolWithAbortSignal`: combine the per-call signal with the
assembly-level one; fail with `AbortError` before invoking the underlying
`execute` when the combined signal is already aborted. -/
def wrapToolWithAbortSignal (tool : AgentTool) (abortSignal : Option AbortSignal) :
    AgentTool :=
  match abortSignal with
  | none => tool
  | some sig =>
    match tool.execute with
    | none => tool
    | some execute =>
      { tool with
        execute := some fun toolCallId params signal =>
          let combined := combineAbortSignals signal (some sig)
          if optAborted combined then .error throwAbortErrorValue
          else execute toolCallId params combined }

/-! ### Schema normalization
(`extractEnumValues`, `mergePropertySchemas`, `normalizeToolParameters`) -/

/-- Size bound for looked-up values, used for the termination of
`extractEnumValues`. -/
def sizeOf_alookup_obj : ∀ {fields : List (String × Json)} {k : String} {v : Json},
    alookup fields k = some v → sizeOf v < sizeOf (Json.obj fields)
  | [], _, _, h => by simp [alookup] at h
  | (k', v') :: tail, k, v, h => by
    simp only [alookup] at h
    split at h
    · cases h
      simp only [Json.obj.sizeOf_spec, List.cons.sizeOf_spec, Prod.mk.sizeOf_spec]
      omega
    · have := sizeOf_alookup_obj h
      simp only [Json.obj.sizeOf_spec, List.cons.sizeOf_spec, Prod.mk.sizeOf_spec] at *
      omega

/-- `extractEnumValues`: literal values named by a schema — an `enum`
array, a `const` (one-value enumeration), or the concatenation of the
values of `anyOf`/`oneOf` alternatives (when non-empty). -/
def extractEnumValues : Json → Option (List Json)
  | .obj fields =>
    match alookup fields "enum" with
    | some (.arr vs) => some vs
    | _ =>
      if (alookup fields "const").isSome then
        some [(alookup fields "const").getD .null]
      else
        match hA : alookup fields "anyOf" with
        | some (.arr variants) =>
          let values := variants.attach.flatMap fun ⟨v, _⟩ =>
            (extractEnumValues v).getD []
          if values.length > 0 then some values else none
        | _ =>
          match hO : alookup fields "oneOf" with
          | some (.arr variants) =>
            let values := variants.attach.flatMap fun ⟨v, _⟩ =>
              (extractEnumValues v).getD []
            if values.length > 0 then some values else none
          | _ => none
  | _ => none
termination_by j => sizeOf j
decreasing_by
  · have h1 := List.sizeOf_lt_of_mem (by assumption : v ∈ variants)
    have h2 := sizeOf_alookup_obj hA
    simp only [Json.arr.sizeOf_spec] at h2
    omega
  · have h1 := List.sizeOf_lt_of_mem (by assumption : v ∈ variants)
    have h2 := sizeOf_alookup_obj hO
    simp only [Json.arr.sizeOf_spec] at h2
    omega

/-- The metadata keys carried forward by `mergePropertySchemas`. -/
def mergeMetaKeys : List String := ["title", "description", "default"]

/-- One step of the metadata-carrying loop: copy `key` from `src` unless
already present. -/
def addMeta (acc : List (String × Json)) (src : Json) (key : String) :
    List (String × Json) :=
  if (alookup acc key).isSome then acc
  else
    match src.getField key with
    | some v => acc ++ [(key, v)]
    | none => acc

/-- The `for (source of [existing, incoming]) for (key of [...])` loop of
`mergePropertySchemas`: first-present metadata wins. -/
def pickMeta (existing incoming : Json) : List (String × Json) :=
  let m1 := mergeMetaKeys.foldl (fun acc key => addMeta acc existing key) []
  mergeMetaKeys.foldl (fun acc key => addMeta acc incoming key) m1

/-- `mergePropertySchemas`: when either side carries literal values, merge
to an enumeration of the deduplicated union, with a scalar `type` only
when all values share one `typeof`, and first-present metadata; otherwise
first-seen wins. -/
def mergePropertySchemas (existing incoming : Json) : Json :=
  if !existing.truthy then incoming
  else if !incoming.truthy then existing
  else
    let existingEnum := extractEnumValues existing
    let incomingEnum := extractEnumValues incoming
    if existingEnum.isSome || incomingEnum.isSome then
      let values := dedupFirst (existingEnum.getD [] ++ incomingEnum.getD [])
      let merged := pickMeta existing incoming
      let types := dedupFirst (values.map jsTypeof)
      let withType := match types with
        | [t] => merged ++ [("type", Json.str t)]
        | _ => merged
      Json.obj (withType ++ [("enum", Json.arr values)])
    else existing

/-- In-place value replacement for an existing key. -/
def replaceAssoc {β : Type} (fields : List (String × β)) (k : String) (v : β) :
    List (String × β) :=
  fields.map fun kv => match kv with
    | (k', v') => if k' = k then (k', v) else (k', v')

/-- `requiredCounts.set(key, (requiredCounts.get(key) ?? 0) + 1)`. -/
def bumpCount (counts : List (String × Nat)) (k : String) : List (String × Nat) :=
  match alookup counts k with
  | some _ => counts.map fun kv => match kv with
      | (k', n) => if k' = k then (k', n + 1) else (k', n)
  | none => counts ++ [(k, 1)]

/-- Accumulator of the per-variant loop in `normalizeToolParameters`. -/
structure MergeState where
  mergedProperties : List (String × Json) := []
  requiredCounts : List (String × Nat) := []
  objectVariants : Nat := 0
deriving Repr

/-- A variant's raw `required` entries (`Array.isArray(entry.required) ?
entry.required : []`). -/
def requiredRawOf (entry : Json) : List Json :=
  match entry.getField "required" with
  | some (.arr xs) => xs
  | _ => []

/-- One iteration of the variant loop: skip non-objects and variants
without an object `properties` map; otherwise merge the property map and
count the string entries of the variant's `required` list. -/
def variantStep (st : MergeState) (entry : Json) : MergeState :=
  if !(entry.truthy && (jsTypeof entry = "object")) then st
  else
    match entry.getField "properties" with
    | none => st
    | some props =>
      if !(props.truthy && (jsTypeof props = "object")) then st
      else
        let merged := props.entriesRecord.foldl (fun m kv =>
          match alookup m kv.1 with
          | none => m ++ [kv]
          | some old => replaceAssoc m kv.1 (mergePropertySchemas old kv.2))
          st.mergedProperties
        let counts := (requiredRawOf entry).foldl (fun c j =>
          match j with
          | .str s => bumpCount c s
          | _ => c) st.requiredCounts
        { mergedProperties := merged, requiredCounts := counts,
          objectVariants := st.objectVariants + 1 }

/-- The whole variant loop. -/
def foldVariants (variants : List Json) : MergeState :=
  variants.foldl variantStep {}

/-- The string entries of a JS array of unknowns. -/
def stringsOf (xs : List Json) : List String :=
  xs.filterMap fun j => match j with | .str s => some s | _ => none

/-- `baseRequired`: the union schema's own top-level `required` list,
filtered to strings (present only when `required` is an array). -/
def baseRequiredOf (schema : Json) : Option (List String) :=
  match schema.getField "required" with
  | some (.arr xs) => some (stringsOf xs)
  | _ => none

/-- The intersection fallback: keys counted once per object variant. -/
def intersectRequired (st : MergeState) : Option (List String) :=
  if st.objectVariants > 0 then
    some (st.requiredCounts.filterMap fun kc =>
      if kc.2 = st.objectVariants then some kc.1 else none)
  else none

/-- `mergedRequired`: the non-empty base list verbatim, else the
intersection over object variants. -/
def mergedRequiredOf (schema : Json) (st : MergeState) : Option (List String) :=
  match baseRequiredOf schema with
  | some l => if l.length > 0 then some l else intersectRequired st
  | none => intersectRequired st

/-- The union alternatives: an `anyOf` array, else a `oneOf` array. -/
def variantsOfSchema (schema : Json) : Option (List Json) :=
  match schema.getField "anyOf" with
  | some (.arr vs) => some vs
  | _ =>
    match schema.getField "oneOf" with
    | some (.arr vs) => some vs
    | _ => none

/-- The flattened object schema built for a union (the literal handed to
`cleanSchemaForGemini` in the union branch of `normalizeToolParameters`). -/
def flattenUnion (schema : Json) (variants : List Json) : Json :=
  let st := foldVariants variants
  let mergedRequired := mergedRequiredOf schema st
  Json.obj
    ([("type", Json.str "object")]
     ++ (match schema.getField "title" with
         | some (.str t) => [("title", Json.str t)]
         | _ => [])
     ++ (match schema.getField "description" with
         | some (.str d) => [("description", Json.str d)]
         | _ => [])
     ++ [("properties",
          if st.mergedProperties.length > 0 then Json.obj st.mergedProperties
          else match schema.getField "properties" with
            | some .null => Json.obj []
            | some v => v
            | none => Json.obj [])]
     ++ (match mergedRequired with
         | some l =>
           if l.length > 0 then [("required", Json.arr (l.map Json.str))] else []
         | none => [])
     ++ [("additionalProperties",
          match schema.getField "additionalProperties" with
          | some v => v
          | none => Json.bool true)])

/-- `Array.isArray(schema[k])`. -/
def isArrField (schema : Json) (k : String) : Bool :=
  match schema.getField k with
  | some (.arr _) => true
  | _ => false

/-- `{...schema, type: "object"}` for the object schemas reaching the
second branch of `normalizeToolParameters`. -/
def withTypeObject (schema : Json) : Json :=
  match schema with
  | .obj fields => .obj (setField fields "type" (Json.str "object"))
  | s => s

/-- `normalizeToolParameters`: scrub plain object schemas, synthesize a
top-level object type for type-less object-shaped schemas, flatten
unions, and leave everything else untouched. `clean` is the external
`cleanSchemaForGemini` collaborator. -/
def normalizeToolParameters (clean : Json → Json) (tool : AgentTool) : AgentTool :=
  let schemaOpt := match tool.parameters with
    | some p => if p.truthy && (jsTypeof p = "object") then some p else none
    | none => none
  match schemaOpt with
  | none => tool
  | some schema =>
    if schema.hasField "type" && schema.hasField "properties"
        && !isArrField schema "anyOf" then
      { tool with parameters := some (clean schema) }
    else if !schema.hasField "type"
        && ((match schema.getField "properties" with
             | some v => jsTypeof v = "object"
             | none => false) || isArrField schema "required")
        && !isArrField schema "anyOf" && !isArrField schema "oneOf" then
      { tool with parameters := some (clean (withTypeObject schema)) }
    else
      match variantsOfSchema schema with
      | none => tool
      | some variants =>
        { tool with parameters := some (clean (flattenUnion schema variants)) }

/-! ### Legacy-parameter remap and execution wrappers -/

/-- Move `fromKey` to `toKey` unless the canonical key is present. -/
def remapKey (fields : List (String × Json)) (fromKey toKey : String) :
    List (String × Json) :=
  if (alookup fields fromKey).isSome && !(alookup fields toKey).isSome then
    (fields.filter fun kv => ¬(kv.1 = fromKey))
      ++ [(toKey, (alookup fields fromKey).getD Json.null)]
  else fields

/-- `normalizeToolParams`: rewrite Claude-Code-style keys (`file_path`,
`old_string`, `new_string`) to canonical ones; non-objects give
`undefined`. -/
def normalizeToolParams (params : Json) : Option Json :=
  if params.truthy && (jsTypeof params = "object") then
    some (.obj (remapKey (remapKey (remapKey params.entriesRecord
      "file_path" "path") "old_string" "oldText") "new_string" "newText"))
  else none

/-- `wrapToolParamNormalization`. -/
def wrapToolParamNormalization (tool : AgentTool) : AgentTool :=
  { tool with
    execute := some fun toolCallId params signal =>
      let normalized := normalizeToolParams params
      runExec tool.execute toolCallId (normalized.getD params) signal }

/-- `wrapSandboxPathGuard`: check a string `path` argument against the
sandbox root (via the external `assertSandboxPath`, modelled as returning
the error it would throw) before executing. -/
def wrapSandboxPathGuard (assertSandboxPath : String → String → Option JsError)
    (tool : AgentTool) (root : String) : AgentTool :=
  { tool with
    execute := some fun toolCallId args signal =>
      let normalized := normalizeToolParams args
      let record := match normalized with
        | some r => some r
        | none =>
          if args.truthy && (jsTypeof args = "object") then some args else none
      let run : Except JsError AgentToolResult :=
        runExec tool.execute toolCallId (normalized.getD args) signal
      match record.bind fun r => r.getField "path" with
      | some (.str fp) =>
        if jsStrTruthy (jsTrim fp) then
          match assertSandboxPath fp root with
          | some err => .error err
          | none => run
        else run
      | _ => run }

/-- `createClawdbotReadTool`: remap legacy params, run the base read tool,
normalize image payloads and sanitize oversized images (the latter is the
external `sanitizeToolResultImages`). -/
def createClawdbotReadTool (decode : String → Option (List Nat))
    (detect : List Nat → Option String)
    (sanitize : AgentToolResult → String → AgentToolResult)
    (base : AgentTool) : AgentTool :=
  { base with
    execute := some fun toolCallId params signal =>
      let normalized := normalizeToolParams params
      match runExec base.execute toolCallId (normalized.getD params) signal with
      | .error e => .error e
      | .ok result =>
        let record := normalized.getD params
        let filePath := match record.getField "path" with
          | some (.str s) => s
          | _ => "<unknown>"
        match normalizeReadImageResult decode detect result filePath with
        | .error e => .error e
        | .ok nr => .ok (sanitize nr ("read:" ++ filePath)) }

/-! ### Tool assembly (`createClawdbotCodingTools`) -/

/-- `SandboxContext`: the fields `pi-tools.ts` reads. `workspaceAccess`
is the access-mode string (`"ro"` for read-only). Container identity,
docker env and browser settings are consumed only by external
constructors and are not represented. -/
structure SandboxContext where
  enabled : Bool
  workspaceDir : String
  workspaceAccess : String := "rw"
  tools : Option SandboxToolPolicy := none

/-- The options of `createClawdbotCodingTools` that influence the
assembled list. (Message-provider/channel/thread options are forwarded
opaquely to external constructors.) -/
structure AssemblyOptions where
  sandbox : Option SandboxContext := none
  sessionKey : Option String := none
  workspaceDir : Option String := none
  config : Option ClawdbotConfig := none
  abortSignal : Option AbortSignal := none
  modelProvider : Option String := none
  modelId : Option String := none

/-- The external collaborators of the assembly, as explicit parameters:
the upstream coding-tool catalog and constructors
(`@mariozechner/pi-coding-agent`), the exec/process/apply-patch/provider/
clawdbot tool factories, session-key classification, agent scoping,
schema scrubbing, path containment, image sanitizing and mime sniffing. -/
structure Externals where
  codingTools : List AgentTool := []
  readToolName : String := "read"
  createReadTool : String → AgentTool := fun _ => { name := "read" }
  createWriteTool : String → AgentTool := fun _ => { name := "write" }
  createEditTool : String → AgentTool := fun _ => { name := "edit" }
  createExecTool : Bool → AgentTool := fun _ => { name := "exec" }
  processTool : AgentTool := { name := "process" }
  createApplyPatchTool : String → Option String → AgentTool :=
    fun _ _ => { name := "apply_patch" }
  providerAgentTools : List AgentTool := []
  clawdbotTools : List AgentTool := []
  resolveAgentIdFromSessionKey : String → Option String := fun _ => none
  resolveAgentConfig : ClawdbotConfig → String → Option AgentConfig := fun _ _ => none
  isSubagentSessionKey : Option String → Bool := fun _ => false
  cleanSchemaForGemini : Json → Json := id
  assertSandboxPath : String → String → Option JsError := fun _ _ => none
  sanitizeToolResultImages : AgentToolResult → String → AgentToolResult := fun r _ => r
  decodeBase64 : String → Option (List Nat) := fun _ => none
  detectMime : List Nat → Option String := fun _ => none
  processCwd : String := "/"

/-- `createSandboxedReadTool`. -/
def createSandboxedReadTool (ext : Externals) (root : String) : AgentTool :=
  wrapSandboxPathGuard ext.assertSandboxPath
    (createClawdbotReadTool ext.decodeBase64 ext.detectMime
      ext.sanitizeToolResultImages (ext.createReadTool root)) root

/-- `createSandboxedWriteTool`. -/
def createSandboxedWriteTool (ext : Externals) (root : String) : AgentTool :=
  wrapSandboxPathGuard ext.assertSandboxPath
    (wrapToolParamNormalization (ext.createWriteTool root)) root

/-- `createSandboxedEditTool`. -/
def createSandboxedEditTool (ext : Externals) (root : String) : AgentTool :=
  wrapSandboxPathGuard ext.assertSandboxPath
    (wrapToolParamNormalization (ext.createEditTool root)) root

/-- The sandbox considered active by the assembly
(`options?.sandbox?.enabled ? options.sandbox : undefined`). -/
def activeSandbox (o : AssemblyOptions) : Option SandboxContext :=
  o.sandbox.bind fun s => if s.enabled then some s else none

/-- `sandboxRoot = sandbox?.workspaceDir`. -/
def sandboxRootOf (o : AssemblyOptions) : Option String :=
  (activeSandbox o).map fun s => s.workspaceDir

/-- JS truthiness of `sandboxRoot` (the guard used throughout). -/
def sandboxRootTruthy (o : AssemblyOptions) : Bool :=
  match sandboxRootOf o with
  | some s => jsStrTruthy s
  | none => false

/-- `allowWorkspaceWrites = sandbox?.workspaceAccess !== "ro"`. -/
def allowWorkspaceWritesOf (o : AssemblyOptions) : Bool :=
  match activeSandbox o with
  | some s => !(s.workspaceAccess = "ro")
  | none => true

/-- `workspaceRoot = options?.workspaceDir ?? process.cwd()`. -/
def workspaceRootOf (ext : Externals) (o : AssemblyOptions) : String :=
  o.workspaceDir.getD ext.processCwd

/-- `applyPatchConfig = options?.config?.tools?.exec?.applyPatch`. -/
def applyPatchConfigOf (o : AssemblyOptions) : Option ApplyPatchCfg :=
  (((o.config.bind fun c => c.tools).bind fun t => t.exec).bind
    fun e => e.applyPatch)

/-- `applyPatchEnabled`: feature flag, provider allow-list and model
allow-list all pass. -/
def applyPatchEnabledOf (o : AssemblyOptions) : Bool :=
  ((applyPatchConfigOf o).bind fun c => c.enabled).getD false
    && isOpenAIProvider o.modelProvider
    && isApplyPatchAllowedForModel
      { modelProvider := o.modelProvider
        modelId := o.modelId
        allowModels := (applyPatchConfigOf o).bind fun c => c.allowModels }

/-- The `applyPatchTool` constructed by the assembly (`null` unless
enabled and, in a sandbox, writable). -/
def applyPatchToolFor (ext : Externals) (o : AssemblyOptions) : Option AgentTool :=
  if !applyPatchEnabledOf o || (sandboxRootTruthy o && !allowWorkspaceWritesOf o) then
    none
  else
    some (ext.createApplyPatchTool
      ((sandboxRootOf o).getD (workspaceRootOf ext o))
      (if sandboxRootTruthy o && allowWorkspaceWritesOf o then sandboxRootOf o
       else none))

/-- The per-base-tool substitution (`codingTools.flatMap`): replace the
read tool with the wrapped/sandboxed variant, drop the upstream exec
tools, drop or keep write/edit depending on the sandbox, pass everything
else through. -/
def baseToolSubstitution (ext : Externals) (o : AssemblyOptions) (tool : AgentTool) :
    List AgentTool :=
  if tool.name = ext.readToolName then
    if sandboxRootTruthy o then
      [createSandboxedReadTool ext ((sandboxRootOf o).getD "")]
    else
      [createClawdbotReadTool ext.decodeBase64 ext.detectMime
        ext.sanitizeToolResultImages (ext.createReadTool (workspaceRootOf ext o))]
  else if tool.name = "bash" || tool.name = "exec" then []
  else if tool.name = "write" then
    if sandboxRootTruthy o then []
    else [wrapToolParamNormalization (ext.createWriteTool (workspaceRootOf ext o))]
  else if tool.name = "edit" then
    if sandboxRootTruthy o then []
    else [wrapToolParamNormalization (ext.createEditTool (workspaceRootOf ext o))]
  else [tool]

/-- `createClawdbotCodingTools`: the ordered assembly pipeline — source
and substitute base tools, construct exec/process/apply-patch, append
provider and clawdbot tools, filter through the effective, sandbox and
subagent policies, normalize schemas, and bind the assembly abort
signal. -/
def createClawdbotCodingTools (ext : Externals) (o : AssemblyOptions) :
    List AgentTool :=
  let sandbox := activeSandbox o
  let resolved := resolveEffectiveToolPolicy ext.resolveAgentIdFromSessionKey
    ext.resolveAgentConfig o.config o.sessionKey
  let effectiveToolsPolicy := resolved.2
  let subagentPolicy :=
    if ext.isSubagentSessionKey o.sessionKey
        && (match o.sessionKey with | some k => jsStrTruthy k | none => false) then
      some (resolveSubagentToolPolicy o.config)
    else none
  let allowBackground := isToolAllowedByPolicies "process"
    [effectiveToolsPolicy, sandbox.bind fun s => s.tools, subagentPolicy]
  let base := ext.codingTools.flatMap (baseToolSubstitution ext o)
  let execTool := ext.createExecTool allowBackground
  let applyPatchTool := applyPatchToolFor ext o
  let tools : List AgentTool :=
    base
    ++ (if sandboxRootTruthy o then
          if allowWorkspaceWritesOf o then
            [createSandboxedEditTool ext ((sandboxRootOf o).getD ""),
             createSandboxedWriteTool ext ((sandboxRootOf o).getD "")]
          else []
        else [])
    ++ (match applyPatchTool with | some t => [t] | none => [])
    ++ [execTool, ext.processTool]
    ++ ext.providerAgentTools
    ++ ext.clawdbotTools
  let toolsFiltered := match effectiveToolsPolicy with
    | some _ => filterToolsByPolicy tools effectiveToolsPolicy
    | none => tools
  let sandboxed := match sandbox with
    | some s => filterToolsByPolicy toolsFiltered s.tools
    | none => toolsFiltered
  let subagentFiltered := match subagentPolicy with
    | some _ => filterToolsByPolicy sandboxed subagentPolicy
    | none => sandboxed
  let normalized := subagentFiltered.map (normalizeToolParameters ext.cleanSchemaForGemini)
  match o.abortSignal with
  | some _ => normalized.map fun tool => wrapToolWithAbortSignal tool o.abortSignal
  | none => normalized

/-! ### Specification-side views used in theorem statements -/

/-- The required list a flattened schema exposes (`[]` when the field is
absent, matching the code's omission of empty required lists). -/
def requiredListOf (j : Json) : List String :=
  match j.getField "required" with
  | some (.arr xs) => stringsOf xs
  | _ => []

/-- A union alternative that "defines object properties": it passes both
truthiness/`typeof` guards of the variant loop. -/
def isObjectVariant (v : Json) : Bool :=
  v.truthy && (jsTypeof v = "object")
    && (match v.getField "properties" with
        | some p => p.truthy && (jsTypeof p = "object")
        | none => false)

/-- The string entries of a variant's `required` list. -/
def requiredStrings (v : Json) : List String :=
  stringsOf (requiredRawOf v)

/-! ### Concrete fixtures for witnesses and counterexamples -/

/-- A trivial successful `execute`. -/
def exampleExec : ExecFun := fun _ _ _ => .ok { content := [] }

/-- A concrete tool with `exampleExec`. -/
def exampleTool : AgentTool := { name := "t", execute := some exampleExec }

/-- A concrete external-collaborator bundle: the upstream catalog carries
read/bash/write/edit plus one passthrough tool. -/
def exampleExternals : Externals :=
  { codingTools := [{ name := "read" }, { name := "bash" }, { name := "write" },
      { name := "edit" }, { name := "grep" }] }

/-- Options with an enabled read-only sandbox and an apply-patch
configuration that passes the feature flag, provider and model checks. -/
def exampleApplyPatchCfg : ApplyPatchCfg :=
  { enabled := some true, allowModels := some ["openai/gpt-5"] }

def exampleReadOnlySandboxOptions : AssemblyOptions :=
  { sandbox := some { enabled := true, workspaceDir := "/w", workspaceAccess := "ro" },
    config := some { tools := some { exec := some { applyPatch := some exampleApplyPatchCfg } } },
    modelProvider := some "openai",
    modelId := some "gpt-5" }

/-- First union alternative of the metadata counterexample: its `p`
property carries an *empty* title. -/
def exampleVariantEmptyTitle : Json :=
  .obj [("properties", .obj [("p",
    .obj [("title", .str ""), ("enum", .arr [.str "x"])])])]

/-- Second union alternative of the metadata counterexample: its `p`
property carries the non-empty title `"T"`. -/
def exampleVariantTitleT : Json :=
  .obj [("properties", .obj [("p",
    .obj [("title", .str "T"), ("enum", .arr [.str "y"])])])]

/-- A union alternative requiring `a`. -/
def exampleVariantRequiresA : Json :=
  .obj [("properties", .obj [("a", .obj [("type", .str "string")])]),
    ("required", .arr [.str "a"])]

/-- A union schema that declares an *empty* top-level required list. -/
def exampleSchemaEmptyRequired : Json :=
  .obj [("anyOf", .arr [exampleVariantRequiresA]), ("required", .arr [])]

/-- A union alternative requiring `a` and `b`. -/
def exampleVariantRequiresAB : Json :=
  .obj [("properties", .obj [("a", .obj []), ("b", .obj [])]),
    ("required", .arr [.str "a", .str "b"])]

/-! ## Helper lemmas -/

theorem mem_dedupFirst_aux {α : Type} [DecidableEq α] (xs : List α) (acc : List α)
    (v : α) :
    v ∈ xs.foldl (fun acc v => if v ∈ acc then acc else acc ++ [v]) acc ↔
      v ∈ acc ∨ v ∈ xs := by
  induction xs generalizing acc with
  | nil => simp
  | cons x rest ih =>
    simp only [List.foldl_cons, List.mem_cons]
    by_cases hx : x ∈ acc
    · rw [if_pos hx, ih]
      constructor
      · rintro (h | h)
        · exact Or.inl h
        · exact Or.inr (Or.inr h)
      · rintro (h | rfl | h)
        · exact Or.inl h
        · exact Or.inl hx
        · exact Or.inr h
    · rw [if_neg hx, ih]
      simp [List.mem_append]
      tauto

theorem mem_dedupFirst {α : Type} [DecidableEq α] (xs : List α) (v : α) :
    v ∈ dedupFirst xs ↔ v ∈ xs := by
  simp [dedupFirst, mem_dedupFirst_aux]

theorem nodup_dedupFirst_aux {α : Type} [DecidableEq α] (xs : List α) (acc : List α)
    (hacc : acc.Nodup) :
    (xs.foldl (fun acc v => if v ∈ acc then acc else acc ++ [v]) acc).Nodup := by
  induction xs generalizing acc with
  | nil => simpa
  | cons x rest ih =>
    simp only [List.foldl_cons]
    by_cases hx : x ∈ acc
    · simpa [hx] using ih acc hacc
    · simp only [hx, if_neg]
      exact ih _ (by simp [List.nodup_append, hacc, hx])

theorem nodup_dedupFirst {α : Type} [DecidableEq α] (xs : List α) :
    (dedupFirst xs).Nodup :=
  nodup_dedupFirst_aux xs [] List.nodup_nil

theorem dedupFirst_eq_singleton {α : Type} [DecidableEq α] (xs : List α) (t : α)
    (hne : xs ≠ []) (hall : ∀ x ∈ xs, x = t) : dedupFirst xs = [t] := by
  have hmem : ∀ v, v ∈ dedupFirst xs ↔ v = t := by
    intro v
    rw [mem_dedupFirst]
    constructor
    · exact fun hv => hall v hv
    · rintro rfl
      obtain ⟨y, hy⟩ := List.exists_mem_of_ne_nil xs hne
      exact (hall y hy) ▸ hy
  have hnd := nodup_dedupFirst xs
  rcases h : dedupFirst xs with _ | ⟨a, rest⟩
  · exact absurd ((hmem t).2 rfl) (by simp [h])
  · have ha : a = t := (hmem a).1 (by simp [h])
    rcases rest with _ | ⟨b, rest'⟩
    · simp [ha]
    · have hb : b = t := (hmem b).1 (by simp [h])
      rw [h] at hnd
      simp [ha, hb] at hnd

theorem alookup_append {β : Type} (l₁ l₂ : List (String × β)) (k : String) :
    alookup (l₁ ++ l₂) k = (alookup l₁ k).or (alookup l₂ k) := by
  induction l₁ with
  | nil => simp [alookup]
  | cons kv rest ih =>
    obtain ⟨k', v'⟩ := kv
    by_cases hk : k' = k <;> simp [alookup, hk, ih]

/-! ## C9: an empty or all-falsy allow list means default-allow -/

/-- C9: when every configured allow entry normalizes away (empty list or
entries that normalize to empty strings), `isToolAllowedByPolicyName`
treats the policy as having no allow set: a name is allowed exactly when
its normalized form is not in the normalized deny set. -/
theorem emptyAllow_defaultAllow (policy : SandboxToolPolicy) (name : String)
    (hallow : normalizeToolNames policy.allow = []) :
    isToolAllowedByPolicyName name (some policy)
      = !((normalizeToolNames policy.deny).contains (normalizeToolName name)) := by
  simp only [isToolAllowedByPolicyName, hallow]
  rcases h : (normalizeToolNames policy.deny).contains (normalizeToolName name) <;> simp [h]

/-- C9 witness: an allow list whose entries are all whitespace imposes no
restriction — a tool not in deny passes, a denied tool fails. -/
theorem emptyAllow_defaultAllow_witness :
    isToolAllowedByPolicyName "grep"
      (some { allow := some ["  ", ""], deny := some ["exec"] }) = true
    ∧ isToolAllowedByPolicyName "bash"
      (some { allow := some ["  ", ""], deny := some ["exec"] }) = false := by
  constructor
  · rw [emptyAllow_defaultAllow { allow := some ["  ", ""], deny := some ["exec"] }
      "grep" (by decide)]
    decide
  · rw [emptyAllow_defaultAllow { allow := some ["  ", ""], deny := some ["exec"] }
      "bash" (by decide)]
    decide

/-! ## C10: apply_patch passes when exec is allowed -/

/-- C10: with a non-empty allow set containing the canonical `exec` (so
also when configured via the alias `bash`), the name `apply_patch` passes
the allow check although not itself listed, provided it is not denied. -/
theorem applyPatch_allowed_via_exec (policy : SandboxToolPolicy)
    (hexec : "exec" ∈ normalizeToolNames policy.allow)
    (hdeny : normalizeToolName "apply_patch" ∉ normalizeToolNames policy.deny) :
    isToolAllowedByPolicyName "apply_patch" (some policy) = true := by
  simp only [isToolAllowedByPolicyName]
  have hne : (normalizeToolNames policy.allow).length > 0 :=
    List.length_pos.2 (List.ne_nil_of_mem hexec)
  have hd : (normalizeToolNames policy.deny).contains (normalizeToolName "apply_patch")
      = false := by
    simpa [List.elem_iff] using hdeny
  have hn : normalizeToolName "apply_patch" = "apply_patch" := by decide
  rw [hn] at hdeny
  rcases ha : (normalizeToolNames policy.allow).contains (normalizeToolName "apply_patch")
  · simp [hd, hn, hne, ha]
    exact ⟨hdeny, hexec⟩
  · simp [hd, hn, hne, ha]
    exact hdeny

/-- C10 witness: allow `["bash"]` (normalizing to `exec`) admits
`apply_patch`. -/
theorem applyPatch_allowed_via_exec_witness :
    isToolAllowedByPolicyName "apply_patch" (some { allow := some ["bash"] }) = true :=
  applyPatch_allowed_via_exec { allow := some ["bash"] } (by decide) (by decide)

/-! ## C1: the full allow/deny decision -/

/-- C1 counterexample: with the non-empty allow set `["exec"]` and no
deny, the name `apply_patch` is accepted although its normalized form is
not in the normalized allow set — refuting "otherwise it returns true
only if the normalized name is in the allow set". -/
theorem allowOnly_counterexample :
    isToolAllowedByPolicyName "apply_patch"
      (some { allow := some ["exec"], deny := none }) = true
    ∧ normalizeToolNames (some ["exec"]) ≠ []
    ∧ normalizeToolName "apply_patch" ∉ normalizeToolNames (some ["exec"]) := by
  decide

/-- C1 (amended): `isToolAllowedByPolicyName` normalizes the name and all
entries, then returns true iff the normalized name is not denied and
either no (normalized) allow entries are configured, or the name is in
the allow set, or the name normalizes to `apply_patch` and `exec` is
allowed. In particular a policy denying `exec` rejects the alias name
`bash`. -/
theorem isToolAllowedByPolicyName_spec (name : String) (policy : SandboxToolPolicy) :
    (isToolAllowedByPolicyName name (some policy) = true ↔
      (normalizeToolName name ∉ normalizeToolNames policy.deny
       ∧ (normalizeToolNames policy.allow = []
          ∨ normalizeToolName name ∈ normalizeToolNames policy.allow
          ∨ (normalizeToolName name = "apply_patch"
             ∧ "exec" ∈ normalizeToolNames policy.allow))))
    ∧ ("exec" ∈ normalizeToolNames policy.deny →
        isToolAllowedByPolicyName "bash" (some policy) = false) := by
  have hbash : normalizeToolName "bash" = "exec" := by decide
  constructor
  · simp only [isToolAllowedByPolicyName]
    rcases hd : (normalizeToolNames policy.deny).contains (normalizeToolName name)
    · rcases hA : normalizeToolNames policy.allow with _ | ⟨a, as⟩
      · simp_all [List.elem_iff]
      · rcases ha : ((a :: as).contains (normalizeToolName name))
        · rcases hap : decide (normalizeToolName name = "apply_patch") <;>
            rcases he : ((a :: as).contains "exec") <;>
            simp_all [List.elem_iff]
        · simp_all [List.elem_iff]
    · simp_all [List.elem_iff]
  · intro hexec
    simp only [isToolAllowedByPolicyName, hbash]
    simp [List.elem_iff]
    exact fun h => absurd hexec h

/-- C1 witness: denying `exec` blocks the alias `bash`, and an allowed
name passes the characterization. -/
theorem isToolAllowedByPolicyName_spec_witness :
    isToolAllowedByPolicyName "bash"
      (some { allow := some ["bash"], deny := some ["exec"] }) = false
    ∧ isToolAllowedByPolicyName "grep" (some { allow := some ["grep"] }) = true := by
  constructor
  · exact (isToolAllowedByPolicyName_spec "bash"
      { allow := some ["bash"], deny := some ["exec"] }).2 (by decide)
  · exact (isToolAllowedByPolicyName_spec "grep" { allow := some ["grep"] }).1.2
      (by decide)

/-! ## C6: cancellation binding -/

/-- C6: a tool wrapped with an assembly-level signal exposes an `execute`
that (a) fails immediately with the distinguishable `AbortError` when the
combination of the per-call and assembly signals is already aborted — for
every underlying `execute`, which is therefore never consulted; (b)
otherwise invokes the underlying `execute` with the combined signal; and
(c) the combined signal is aborted exactly when either source is. -/
theorem wrapToolWithAbortSignal_spec (tool : AgentTool) (execute : ExecFun)
    (assemblySig : AbortSignal) (hexec : tool.execute = some execute) :
    ∃ wrapped, (wrapToolWithAbortSignal tool (some assemblySig)).execute = some wrapped
      ∧ (∀ toolCallId params signal,
          optAborted (combineAbortSignals signal (some assemblySig)) = true →
          wrapped toolCallId params signal = .error throwAbortErrorValue)
      ∧ (∀ toolCallId params signal,
          optAborted (combineAbortSignals signal (some assemblySig)) = false →
          wrapped toolCallId params signal
            = execute toolCallId params (combineAbortSignals signal (some assemblySig)))
      ∧ (∀ a b, optAborted (combineAbortSignals a b) = (optAborted a || optAborted b)) := by
  refine ⟨fun toolCallId params signal =>
      let combined := combineAbortSignals signal (some assemblySig)
      if optAborted combined then .error throwAbortErrorValue
      else execute toolCallId params combined, ?_, ?_, ?_, ?_⟩
  · simp [wrapToolWithAbortSignal, hexec]
  · intro toolCallId params signal h
    simp [h]
  · intro toolCallId params signal h
    simp [h]
  · intro a b
    rcases a with _ | ⟨_ | _⟩ <;> rcases b with _ | ⟨_ | _⟩ <;>
      simp [combineAbortSignals, optAborted]

/-- C6 witness: with an already-aborted assembly signal the wrapped call
fails with `AbortError` even though the underlying `execute` succeeds. -/
theorem wrapToolWithAbortSignal_spec_witness :
    ∃ wrapped,
      (wrapToolWithAbortSignal exampleTool (some { aborted := true })).execute
        = some wrapped
      ∧ wrapped "id" Json.null none = .error throwAbortErrorValue := by
  obtain ⟨w, hw, habort, _, _⟩ :=
    wrapToolWithAbortSignal_spec exampleTool exampleExec { aborted := true } rfl
  exact ⟨w, hw, habort "id" Json.null none (by decide)⟩

/-! ## C2: effective policy resolution -/

/-- C2: `resolveEffectiveToolPolicy` returns the per-agent tools policy
exclusively whenever the resolved agent config defines an allow or deny
list, and the global tools policy otherwise; consequently a name the
selected per-agent policy denies stays denied in the effective policy,
whatever the global policy says. -/
theorem resolveEffectiveToolPolicy_spec (rid : String → Option String)
    (rac : ClawdbotConfig → String → Option AgentConfig)
    (config : Option ClawdbotConfig) (sessionKey : Option String) :
    (∀ agentTools,
       ((resolvedAgentConfig rid rac config sessionKey).bind fun c => c.tools)
         = some agentTools →
       agentTools.allow.isSome ∨ agentTools.deny.isSome →
       (resolveEffectiveToolPolicy rid rac config sessionKey).2 = some agentTools)
    ∧ ((∀ agentTools,
         ((resolvedAgentConfig rid rac config sessionKey).bind fun c => c.tools)
           = some agentTools →
         agentTools.allow = none ∧ agentTools.deny = none) →
       (resolveEffectiveToolPolicy rid rac config sessionKey).2
         = (config.bind fun c => c.tools).map ToolsCfg.toPolicy)
    ∧ (∀ name agentTools,
        ((resolvedAgentConfig rid rac config sessionKey).bind fun c => c.tools)
          = some agentTools →
        agentTools.allow.isSome ∨ agentTools.deny.isSome →
        isToolAllowedByPolicyName name (some agentTools) = false →
        isToolAllowedByPolicyName name
          (resolveEffectiveToolPolicy rid rac config sessionKey).2 = false) := by
  refine ⟨?_, ?_, ?_⟩
  · intro agentTools hat hdef
    simp only [resolveEffectiveToolPolicy, hat]
    rcases hdef with h | h <;> simp [h]
  · intro hnone
    simp only [resolveEffectiveToolPolicy]
    rcases hat : ((resolvedAgentConfig rid rac config sessionKey).bind fun c => c.tools) with
      _ | at_
    · simp
    · obtain ⟨ha, hd⟩ := hnone at_ hat
      simp [ha, hd]
  · intro name agentTools hat hdef hden
    simp only [resolveEffectiveToolPolicy, hat]
    rcases hdef with h | h <;> simp [h, hden]

/-- C2 witness: a per-agent deny list is selected exclusively, overriding
a permissive global policy. -/
theorem resolveEffectiveToolPolicy_spec_witness :
    (resolveEffectiveToolPolicy (fun _ => some "a")
      (fun _ _ => some { tools := some { deny := some ["exec"] } })
      (some { tools := some { allow := some ["exec"] } }) (some "agent:a:main")).2
      = some { deny := some ["exec"] }
    ∧ isToolAllowedByPolicyName "bash"
        (resolveEffectiveToolPolicy (fun _ => some "a")
          (fun _ _ => some { tools := some { deny := some ["exec"] } })
          (some { tools := some { allow := some ["exec"] } })
          (some "agent:a:main")).2 = false := by
  constructor
  · exact (resolveEffectiveToolPolicy_spec (fun _ => some "a")
      (fun _ _ => some { tools := some { deny := some ["exec"] } })
      (some { tools := some { allow := some ["exec"] } }) (some "agent:a:main")).1
      { deny := some ["exec"] } (by decide) (by decide)
  · exact (resolveEffectiveToolPolicy_spec (fun _ => some "a")
      (fun _ _ => some { tools := some { deny := some ["exec"] } })
      (some { tools := some { allow := some ["exec"] } }) (some "agent:a:main")).2.2
      "bash" { deny := some ["exec"] } (by decide) (by decide) (by decide)

/-! ## C5: read-result image correction -/

/-- C5: for a read result containing an image block — (a) an
empty-or-whitespace payload fails the call (for every sniffing
collaborator, i.e. before sniffing); (b) an inconclusive sniff leaves the
result untouched; (c) a non-image sniffed type fails the call; (d) a
sniffed type equal to the declared one leaves the result untouched; (e) a
differing sniffed type rewrites every image block's type tag and rewrites
the fixed `Read image file [declared]` header text to name the sniffed
type. -/
theorem normalizeReadImageResult_spec (decode : String → Option (List Nat))
    (detect : List Nat → Option String) (result : AgentToolResult)
    (filePath data mime : String)
    (him : findFirstImage result.content = some (data, mime)) :
    (jsTrim data = "" →
      normalizeReadImageResult decode detect result filePath
        = .error ⟨"Error", s!"read: image payload is empty ({filePath})"⟩)
    ∧ (jsTrim data ≠ "" → sniffMimeFromBase64 decode detect data = none →
      normalizeReadImageResult decode detect result filePath = .ok result)
    ∧ (∀ sniffed, jsTrim data ≠ "" →
        sniffMimeFromBase64 decode detect data = some sniffed →
        jsStartsWith sniffed "image/" = false →
        normalizeReadImageResult decode detect result filePath
          = .error ⟨"Error",
            s!"read: file looks like {sniffed} but was treated as {mime} ({filePath})"⟩)
    ∧ (∀ sniffed, jsTrim data ≠ "" →
        sniffMimeFromBase64 decode detect data = some sniffed →
        jsStartsWith sniffed "image/" = true → sniffed = mime →
        normalizeReadImageResult decode detect result filePath = .ok result)
    ∧ (∀ sniffed, jsTrim data ≠ "" →
        sniffMimeFromBase64 decode detect data = some sniffed →
        jsStartsWith sniffed "image/" = true → sniffed ≠ mime →
        normalizeReadImageResult decode detect result filePath
          = .ok { result with content := result.content.map (correctBlock sniffed) }
        ∧ correctBlock sniffed (.text ("Read image file [" ++ mime ++ "]"))
          = .text ("Read image file [" ++ sniffed ++ "]")
        ∧ (∀ d m, correctBlock sniffed (.image d m) = .image d sniffed)) := by
  refine ⟨?_, ?_, ?_, ?_, ?_⟩
  · intro h
    simp [normalizeReadImageResult, him, h]
  · intro h hs
    simp [normalizeReadImageResult, him, h, hs]
  · intro sniffed h hs hni
    simp [normalizeReadImageResult, him, h, hs, hni]
  · intro sniffed h hs hi heq
    subst heq
    simp [normalizeReadImageResult, him, h, hs, hi]
  · intro sniffed h hs hi hne
    refine ⟨?_, ?_, fun d m => rfl⟩
    · simp [normalizeReadImageResult, him, h, hs, hi, hne]
    · have hpre : jsStartsWith ("Read image file [" ++ mime ++ "]")
          "Read image file [" = true := by
        simp only [jsStartsWith, List.isPrefixOf_iff_prefix]
        refine ⟨(mime ++ "]").data, ?_⟩
        have : ("Read image file [" ++ mime ++ "]") = "Read image file [" ++ (mime ++ "]") := by
          simp [String.append_assoc]
        rw [this]
        rfl
      have hsuf : jsEndsWith ("Read image file [" ++ mime ++ "]") "]" = true := by
        simp only [jsEndsWith, List.isSuffixOf_iff_suffix]
        exact ⟨("Read image file [" ++ mime).data, rfl⟩
      simp [correctBlock, rewriteReadImageHeader, hpre, hsuf]

/-- C5 witness: a block declared `image/jpeg` whose payload sniffs as
`image/png` is rewritten, together with its companion header text. -/
theorem normalizeReadImageResult_spec_witness :
    normalizeReadImageResult (fun _ => some [137, 80, 78, 71])
      (fun _ => some "image/png")
      { content := [ContentBlock.text "Read image file [image/jpeg]",
         ContentBlock.image "AAAAAAAAAAAA" "image/jpeg"] } "f.jpg"
      = .ok { content := [ContentBlock.text "Read image file [image/png]",
         ContentBlock.image "AAAAAAAAAAAA" "image/png"] } := by
  have h := (normalizeReadImageResult_spec (fun _ => some [137, 80, 78, 71])
    (fun _ => some "image/png")
    { content := [ContentBlock.text "Read image file [image/jpeg]",
       ContentBlock.image "AAAAAAAAAAAA" "image/jpeg"] } "f.jpg"
    "AAAAAAAAAAAA" "image/jpeg" rfl).2.2.2.2 "image/png"
    (by decide) (by decide) (by decide) (by decide)
  rw [h.1]
  rfl

/-! ## C7: apply-patch gating -/

theorem isOpenAIProvider_iff (provider : Option String) :
    isOpenAIProvider provider = true ↔
      ∃ p, provider = some p
        ∧ (jsToLower (jsTrim p) = "openai" ∨ jsToLower (jsTrim p) = "openai-codex") := by
  rcases provider with _ | p <;> simp [isOpenAIProvider]

theorem isApplyPatchAllowedForModel_iff (params : ApplyPatchModelParams) :
    isApplyPatchAllowedForModel params = true ↔
      (params.allowModels.getD [] = []
       ∨ ∃ mid, params.modelId = some mid ∧ jsTrim mid ≠ ""
          ∧ ∃ entry ∈ params.allowModels.getD [],
              jsToLower (jsTrim entry) ≠ ""
              ∧ (jsToLower (jsTrim entry) = jsToLower (jsTrim mid)
                 ∨ jsToLower (jsTrim entry)
                     = applyPatchFullModelId params.modelProvider (jsTrim mid))) := by
  unfold isApplyPatchAllowedForModel
  rcases hA : params.allowModels.getD [] with _ | ⟨a, as⟩
  · simp [hA]
  · rcases hm : params.modelId with _ | mid
    · simp [hA, hm]
    · by_cases ht : jsTrim mid = ""
      · simp [hA, hm, ht]
      · simp [hA, hm, ht, List.any_eq_true, jsStrTruthy]

/-- C7 counterexample: with the feature flag on, provider `openai`, model
`gpt-5` matching the allow-list entry `openai/gpt-5` — all three claimed
conditions hold — a read-only sandbox still prevents the apply-patch tool
from being constructed, refuting the claimed "if and only if". -/
theorem applyPatchGating_counterexample :
    (((applyPatchConfigOf exampleReadOnlySandboxOptions).bind
        fun c => c.enabled).getD false) = true
    ∧ isOpenAIProvider exampleReadOnlySandboxOptions.modelProvider = true
    ∧ isApplyPatchAllowedForModel
        { modelProvider := exampleReadOnlySandboxOptions.modelProvider,
          modelId := exampleReadOnlySandboxOptions.modelId,
          allowModels := (applyPatchConfigOf exampleReadOnlySandboxOptions).bind
            fun c => c.allowModels } = true
    ∧ applyPatchToolFor exampleExternals exampleReadOnlySandboxOptions = none := by
  refine ⟨by decide, by decide, by decide, rfl⟩

/-- C7 (amended): the apply-patch tool is constructed iff the feature
flag is enabled, the trimmed lower-cased provider is `openai` or
`openai-codex`, the model allow-list is empty/absent or matched by the
trimmed lower-cased model id (bare or in `provider/id` form), and it is
not the case that an active sandbox (with truthy workspace root) has
read-only workspace access. -/
theorem applyPatchToolFor_spec (ext : Externals) (o : AssemblyOptions) :
    (applyPatchToolFor ext o).isSome = true ↔
      (((applyPatchConfigOf o).bind fun c => c.enabled).getD false = true
       ∧ (∃ p, o.modelProvider = some p
            ∧ (jsToLower (jsTrim p) = "openai" ∨ jsToLower (jsTrim p) = "openai-codex"))
       ∧ (((applyPatchConfigOf o).bind fun c => c.allowModels).getD [] = []
          ∨ ∃ mid, o.modelId = some mid ∧ jsTrim mid ≠ ""
             ∧ ∃ entry ∈ ((applyPatchConfigOf o).bind fun c => c.allowModels).getD [],
                 jsToLower (jsTrim entry) ≠ ""
                 ∧ (jsToLower (jsTrim entry) = jsToLower (jsTrim mid)
                    ∨ jsToLower (jsTrim entry)
                        = applyPatchFullModelId o.modelProvider (jsTrim mid)))
       ∧ ¬(sandboxRootTruthy o = true ∧ allowWorkspaceWritesOf o = false)) := by
  have hsome : (applyPatchToolFor ext o).isSome
      = (applyPatchEnabledOf o && !(sandboxRootTruthy o && !allowWorkspaceWritesOf o)) := by
    unfold applyPatchToolFor
    rcases h1 : applyPatchEnabledOf o <;>
      rcases h2 : sandboxRootTruthy o <;>
        rcases h3 : allowWorkspaceWritesOf o <;> simp [h1, h2, h3]
  rw [hsome]
  simp only [applyPatchEnabledOf, Bool.and_eq_true, Bool.not_eq_true',
    Bool.and_eq_false_iff, Bool.not_eq_false']
  rw [isOpenAIProvider_iff, isApplyPatchAllowedForModel_iff]
  constructor
  · rintro ⟨⟨⟨hA, hB⟩, hC⟩, hD⟩
    refine ⟨hA, hB, hC, ?_⟩
    rintro ⟨hs, hw⟩
    rcases hD with h | h
    · rw [hs] at h; cases h
    · rw [hw] at h; cases h
  · rintro ⟨hA, hB, hC, hD⟩
    refine ⟨⟨⟨hA, hB⟩, hC⟩, ?_⟩
    rcases hs : sandboxRootTruthy o
    · exact Or.inl rfl
    · rcases hw : allowWorkspaceWritesOf o
      · exact absurd ⟨hs, hw⟩ hD
      · exact Or.inr rfl

/-- C7 witness (for the amended claim): without a sandbox, flag on,
provider `openai`, model `gpt-5` against allow-list `["openai/gpt-5"]`,
the tool is constructed. -/
theorem applyPatchToolFor_spec_witness :
    (applyPatchToolFor exampleExternals
      { exampleReadOnlySandboxOptions with sandbox := none }).isSome = true := by
  refine (applyPatchToolFor_spec exampleExternals
    { exampleReadOnlySandboxOptions with sandbox := none }).2
    ⟨by decide, ⟨"openai", rfl, Or.inl (by decide)⟩, ?_, ?_⟩
  · refine Or.inr ⟨"gpt-5", rfl, by decide, "openai/gpt-5", by decide, by decide, ?_⟩
    exact Or.inr (by decide)
  · rintro ⟨hs, -⟩
    simp [sandboxRootTruthy, sandboxRootOf, activeSandbox] at hs

/-! ## C3: property-schema merging -/

theorem alookup_addMeta_ne (acc : List (String × Json)) (src : Json) (k key : String)
    (hk : k ≠ key) : alookup (addMeta acc src key) k = alookup acc k := by
  unfold addMeta
  split
  · rfl
  · rcases h : src.getField key with _ | v
    · rfl
    · rw [alookup_append]
      simp [alookup, Ne.symm hk]

theorem alookup_addMeta_self (acc : List (String × Json)) (src : Json) (key : String) :
    alookup (addMeta acc src key) key = (alookup acc key).or (src.getField key) := by
  unfold addMeta
  rcases h : alookup acc key with _ | v
  · simp only [h, Option.isSome_none, Bool.false_eq_true, if_false]
    rcases hs : src.getField key with _ | w
    · simp [h]
    · rw [alookup_append]
      simp [h, alookup]
  · simp [h]

theorem alookup_pickMeta_title (e i : Json) :
    alookup (pickMeta e i) "title" = (e.getField "title").or (i.getField "title") := by
  show alookup (addMeta (addMeta (addMeta (addMeta (addMeta (addMeta [] e "title")
    e "description") e "default") i "title") i "description") i "default") "title" = _
  rw [alookup_addMeta_ne _ _ _ _ (by decide), alookup_addMeta_ne _ _ _ _ (by decide),
    alookup_addMeta_self, alookup_addMeta_ne _ _ _ _ (by decide),
    alookup_addMeta_ne _ _ _ _ (by decide), alookup_addMeta_self]
  simp [alookup]

theorem alookup_pickMeta_description (e i : Json) :
    alookup (pickMeta e i) "description"
      = (e.getField "description").or (i.getField "description") := by
  show alookup (addMeta (addMeta (addMeta (addMeta (addMeta (addMeta [] e "title")
    e "description") e "default") i "title") i "description") i "default") "description" = _
  rw [alookup_addMeta_ne _ _ _ _ (by decide), alookup_addMeta_self,
    alookup_addMeta_ne _ _ _ _ (by decide), alookup_addMeta_ne _ _ _ _ (by decide),
    alookup_addMeta_self, alookup_addMeta_ne _ _ _ _ (by decide)]
  simp [alookup]

theorem alookup_pickMeta_default (e i : Json) :
    alookup (pickMeta e i) "default"
      = (e.getField "default").or (i.getField "default") := by
  show alookup (addMeta (addMeta (addMeta (addMeta (addMeta (addMeta [] e "title")
    e "description") e "default") i "title") i "description") i "default") "default" = _
  rw [alookup_addMeta_self, alookup_addMeta_ne _ _ _ _ (by decide),
    alookup_addMeta_ne _ _ _ _ (by decide), alookup_addMeta_self,
    alookup_addMeta_ne _ _ _ _ (by decide), alookup_addMeta_ne _ _ _ _ (by decide)]
  simp [alookup]

theorem alookup_pickMeta_other (e i : Json) (k : String) (h1 : k ≠ "title")
    (h2 : k ≠ "description") (h3 : k ≠ "default") :
    alookup (pickMeta e i) k = none := by
  show alookup (addMeta (addMeta (addMeta (addMeta (addMeta (addMeta [] e "title")
    e "description") e "default") i "title") i "description") i "default") k = none
  rw [alookup_addMeta_ne _ _ _ _ h3, alookup_addMeta_ne _ _ _ _ h2,
    alookup_addMeta_ne _ _ _ _ h1, alookup_addMeta_ne _ _ _ _ h3,
    alookup_addMeta_ne _ _ _ _ h2, alookup_addMeta_ne _ _ _ _ h1]
  rfl

theorem mergePropertySchemas_eq_obj (e i : Json) (he : e.truthy = true)
    (hi : i.truthy = true)
    (henum : ((extractEnumValues e).isSome || (extractEnumValues i).isSome) = true) :
    mergePropertySchemas e i = Json.obj (
      (match dedupFirst ((dedupFirst ((extractEnumValues e).getD []
            ++ (extractEnumValues i).getD [])).map jsTypeof) with
       | [t] => pickMeta e i ++ [("type", Json.str t)]
       | _ => pickMeta e i)
      ++ [("enum", Json.arr (dedupFirst ((extractEnumValues e).getD []
            ++ (extractEnumValues i).getD [])))]) := by
  unfold mergePropertySchemas
  simp [he, hi, henum]

/-- C3 counterexample: flattening two alternatives whose shared property
carries titles `""` (first) and `"T"` (second) yields the *empty* title —
the code carries the first *present* metadata value forward, not the
first non-empty one. -/
theorem mergeTitle_counterexample :
    Option.bind
      (Option.bind
        ((flattenUnion
          (Json.obj [("anyOf", Json.arr [exampleVariantEmptyTitle, exampleVariantTitleT])])
          [exampleVariantEmptyTitle, exampleVariantTitleT]).getField "properties")
        (fun props => props.getField "p"))
      (fun p => p.getField "title")
    = some (Json.str "")
    ∧ Json.str "" ≠ Json.str "T" := by
  constructor
  · simp [flattenUnion, foldVariants, variantStep, mergedRequiredOf, baseRequiredOf,
      intersectRequired, stringsOf, bumpCount, replaceAssoc, mergePropertySchemas,
      exampleVariantEmptyTitle, exampleVariantTitleT, Json.getField, Json.entriesRecord,
      Json.truthy, jsTypeof, alookup, extractEnumValues, dedupFirst, pickMeta,
      mergeMetaKeys, addMeta]
  · decide

/-- C3 (amended): when merging two conflicting property schemas, if
either side is an enumeration (a `const` counting as a one-value
enumeration) the merged schema is an enumeration of the union of both
sides' values in first-seen order without duplicates; a single scalar
`type` is set exactly when all values share one `typeof`; and the first
*present* (possibly empty) title/description/default across the two
sources is carried forward. If neither side is an enumeration, the
first-seen schema wins. -/
theorem mergePropertySchemas_spec (e i : Json) (he : e.truthy = true)
    (hi : i.truthy = true) :
    (extractEnumValues e = none → extractEnumValues i = none →
      mergePropertySchemas e i = e)
    ∧ ((extractEnumValues e).isSome ∨ (extractEnumValues i).isSome →
      ((mergePropertySchemas e i).getField "enum"
          = some (.arr (dedupFirst ((extractEnumValues e).getD []
              ++ (extractEnumValues i).getD [])))
        ∧ (dedupFirst ((extractEnumValues e).getD []
            ++ (extractEnumValues i).getD [])).Nodup
        ∧ (∀ v, v ∈ dedupFirst ((extractEnumValues e).getD []
              ++ (extractEnumValues i).getD [])
            ↔ v ∈ (extractEnumValues e).getD [] ++ (extractEnumValues i).getD [])
        ∧ (∀ t, (mergePropertySchemas e i).getField "type" = some (.str t) →
            ∀ v ∈ dedupFirst ((extractEnumValues e).getD []
              ++ (extractEnumValues i).getD []), jsTypeof v = t)
        ∧ (∀ t, dedupFirst ((extractEnumValues e).getD []
              ++ (extractEnumValues i).getD []) ≠ [] →
            (∀ v ∈ dedupFirst ((extractEnumValues e).getD []
              ++ (extractEnumValues i).getD []), jsTypeof v = t) →
            (mergePropertySchemas e i).getField "type" = some (.str t))
        ∧ (mergePropertySchemas e i).getField "title"
            = (e.getField "title").or (i.getField "title")
        ∧ (mergePropertySchemas e i).getField "description"
            = (e.getField "description").or (i.getField "description")
        ∧ (mergePropertySchemas e i).getField "default"
            = (e.getField "default").or (i.getField "default"))) := by
  constructor
  · intro hee hie
    unfold mergePropertySchemas
    simp [he, hi, hee, hie]
  · intro henum
    have hb : ((extractEnumValues e).isSome || (extractEnumValues i).isSome) = true := by
      rcases henum with h | h <;> simp [h]
    have heq := mergePropertySchemas_eq_obj e i he hi hb
    set values := dedupFirst ((extractEnumValues e).getD []
      ++ (extractEnumValues i).getD []) with hvalues
    have henumf : (mergePropertySchemas e i).getField "enum"
        = some (.arr values) := by
      rw [heq]
      simp only [Json.getField]
      rcases htypes : dedupFirst (values.map jsTypeof) with _ | ⟨t, rest⟩
      · rw [alookup_append, alookup_pickMeta_other e i "enum" (by decide) (by decide)
          (by decide)]
        simp [alookup]
      · rcases rest with _ | ⟨t2, rest2⟩
        · rw [alookup_append, alookup_append, alookup_pickMeta_other e i "enum"
            (by decide) (by decide) (by decide)]
          simp [alookup]
        · rw [alookup_append, alookup_pickMeta_other e i "enum" (by decide) (by decide)
            (by decide)]
          simp [alookup]
    refine ⟨henumf, nodup_dedupFirst _, fun v => mem_dedupFirst _ v, ?_, ?_, ?_, ?_, ?_⟩
    · intro t ht v hv
      have htypes : dedupFirst (values.map jsTypeof) = [t] := by
        rw [heq] at ht
        simp only [Json.getField] at ht
        rcases h : dedupFirst (values.map jsTypeof) with _ | ⟨t', rest⟩
        · rw [h, alookup_append, alookup_pickMeta_other e i "type" (by decide) (by decide)
            (by decide)] at ht
          simp [alookup] at ht
        · rcases rest with _ | ⟨t2, rest2⟩
          · rw [h, alookup_append, alookup_append, alookup_pickMeta_other e i "type"
              (by decide) (by decide) (by decide)] at ht
            simp [alookup] at ht
            simp [ht]
          · rw [h, alookup_append, alookup_pickMeta_other e i "type" (by decide)
              (by decide) (by decide)] at ht
            simp [alookup] at ht
      have : jsTypeof v ∈ dedupFirst (values.map jsTypeof) := by
        rw [mem_dedupFirst]
        exact List.mem_map_of_mem jsTypeof hv
      rw [htypes] at this
      simpa using this
    · intro t hne hall
      have htypes : dedupFirst (values.map jsTypeof) = [t] := by
        refine dedupFirst_eq_singleton _ t (by simpa using hne) ?_
        intro x hx
        obtain ⟨v, hv, rfl⟩ := List.mem_map.1 hx
        exact hall v hv
      rw [heq]
      simp only [Json.getField, htypes]
      rw [alookup_append, alookup_append, alookup_pickMeta_other e i "type"
        (by decide) (by decide) (by decide)]
      simp [alookup]
    · rw [heq]
      simp only [Json.getField]
      rcases htypes : dedupFirst (values.map jsTypeof) with _ | ⟨t, rest⟩
      · rw [alookup_append, alookup_pickMeta_title]
        simp [alookup, Json.getField]
      · rcases rest with _ | ⟨t2, rest2⟩
        · rw [alookup_append, alookup_append, alookup_pickMeta_title]
          simp [alookup, Json.getField, Option.or_assoc]
        · rw [alookup_append, alookup_pickMeta_title]
          simp [alookup, Json.getField]
    · rw [heq]
      simp only [Json.getField]
      rcases htypes : dedupFirst (values.map jsTypeof) with _ | ⟨t, rest⟩
      · rw [alookup_append, alookup_pickMeta_description]
        simp [alookup, Json.getField]
      · rcases rest with _ | ⟨t2, rest2⟩
        · rw [alookup_append, alookup_append, alookup_pickMeta_description]
          simp [alookup, Json.getField, Option.or_assoc]
        · rw [alookup_append, alookup_pickMeta_description]
          simp [alookup, Json.getField]
    · rw [heq]
      simp only [Json.getField]
      rcases htypes : dedupFirst (values.map jsTypeof) with _ | ⟨t, rest⟩
      · rw [alookup_append, alookup_pickMeta_default]
        simp [alookup, Json.getField]
      · rcases rest with _ | ⟨t2, rest2⟩
        · rw [alookup_append, alookup_append, alookup_pickMeta_default]
          simp [alookup, Json.getField, Option.or_assoc]
        · rw [alookup_append, alookup_pickMeta_default]
          simp [alookup, Json.getField]

/-- C3 witness: alternatives `enum [x,y]` and `enum [y,z]` merge to
`enum [x,y,z]` with scalar type `string`. -/
theorem mergePropertySchemas_spec_witness :
    (mergePropertySchemas (Json.obj [("enum", Json.arr [Json.str "x", Json.str "y"])])
        (Json.obj [("enum", Json.arr [Json.str "y", Json.str "z"])])).getField "enum"
      = some (Json.arr [Json.str "x", Json.str "y", Json.str "z"])
    ∧ (mergePropertySchemas (Json.obj [("enum", Json.arr [Json.str "x", Json.str "y"])])
        (Json.obj [("enum", Json.arr [Json.str "y", Json.str "z"])])).getField "type"
      = some (Json.str "string") := by
  have h := (mergePropertySchemas_spec
    (Json.obj [("enum", Json.arr [Json.str "x", Json.str "y"])])
    (Json.obj [("enum", Json.arr [Json.str "y", Json.str "z"])])
    (by decide) (by decide)).2 (Or.inl (by simp [extractEnumValues, alookup]))
  have hvals : dedupFirst
      ((extractEnumValues (Json.obj [("enum", Json.arr [Json.str "x", Json.str "y"])])).getD []
        ++ (extractEnumValues (Json.obj [("enum", Json.arr [Json.str "y", Json.str "z"])])).getD [])
      = [Json.str "x", Json.str "y", Json.str "z"] := by
    simp [extractEnumValues, alookup, dedupFirst]
  constructor
  · rw [h.1, hvals]
  · refine h.2.2.2.2.1 "string" ?_ ?_
    · rw [hvals]; simp
    · rw [hvals]
      intro v hv
      simp only [List.mem_cons, List.not_mem_nil, or_false] at hv
      rcases hv with rfl | rfl | rfl <;> rfl

/-! ## C4: the flattened required list -/

theorem alookup_cons_self {β : Type} (k : String) (v : β) (rest : List (String × β)) :
    alookup ((k, v) :: rest) k = some v := by
  simp [alookup]

theorem alookup_cons_ne {β : Type} {k k' : String} (h : k ≠ k') (v : β)
    (rest : List (String × β)) : alookup ((k, v) :: rest) k' = alookup rest k' := by
  simp [alookup, h]

theorem alookup_map_bump (c : List (String × Nat)) (k : String) :
    alookup (c.map fun kv => match kv with
      | (k', n) => if k' = k then (k', n + 1) else (k', n)) k
      = (alookup c k).map (· + 1) := by
  induction c with
  | nil => rfl
  | cons kv rest ih =>
    obtain ⟨k', n⟩ := kv
    rw [List.map_cons]
    have hhead : (match ((k', n) : String × Nat) with
        | (k'', n') => if k'' = k then (k'', n' + 1) else (k'', n'))
        = if k' = k then (k', n + 1) else (k', n) := rfl
    rw [hhead]
    by_cases hk : k' = k
    · subst hk
      rw [if_pos rfl, alookup_cons_self, alookup_cons_self]
      rfl
    · rw [if_neg hk, alookup_cons_ne hk, alookup_cons_ne hk, ih]

theorem alookup_map_bump_ne (c : List (String × Nat)) (k k' : String) (h : k' ≠ k) :
    alookup (c.map fun kv => match kv with
      | (k'', n) => if k'' = k then (k'', n + 1) else (k'', n)) k'
      = alookup c k' := by
  induction c with
  | nil => rfl
  | cons kv rest ih =>
    obtain ⟨k'', n⟩ := kv
    rw [List.map_cons]
    have hhead : (match ((k'', n) : String × Nat) with
        | (k3, n') => if k3 = k then (k3, n' + 1) else (k3, n'))
        = if k'' = k then (k'', n + 1) else (k'', n) := rfl
    rw [hhead]
    by_cases hk : k'' = k
    · subst hk
      rw [if_pos rfl, alookup_cons_ne (Ne.symm h), alookup_cons_ne (Ne.symm h), ih]
    · rw [if_neg hk]
      by_cases hk2 : k'' = k'
      · subst hk2
        rw [alookup_cons_self, alookup_cons_self]
      · rw [alookup_cons_ne hk2, alookup_cons_ne hk2, ih]

theorem alookup_bumpCount_self (c : List (String × Nat)) (k : String) :
    alookup (bumpCount c k) k = some ((alookup c k).getD 0 + 1) := by
  rcases h : alookup c k with _ | n
  · simp only [bumpCount, h]
    rw [alookup_append]
    simp [h, alookup]
  · simp only [bumpCount, h]
    rw [alookup_map_bump]
    simp [h]

theorem alookup_bumpCount_ne (c : List (String × Nat)) (k k' : String) (h : k' ≠ k) :
    alookup (bumpCount c k) k' = alookup c k' := by
  rcases hx : alookup c k with _ | n
  · simp only [bumpCount, hx]
    rw [alookup_append]
    simp [alookup, Ne.symm h]
  · simp only [bumpCount, hx]
    exact alookup_map_bump_ne c k k' h

theorem alookup_eq_none_iff {β : Type} (c : List (String × β)) (k : String) :
    alookup c k = none ↔ k ∉ c.map Prod.fst := by
  induction c with
  | nil => simp [alookup]
  | cons kv rest ih =>
    obtain ⟨k', v⟩ := kv
    by_cases h : k' = k
    · subst h
      simp [alookup]
    · simp [alookup, h, ih, Ne.symm h]

theorem keys_bumpCount (c : List (String × Nat)) (k : String) :
    (bumpCount c k).map Prod.fst
      = if (alookup c k).isSome then c.map Prod.fst else c.map Prod.fst ++ [k] := by
  rcases h : alookup c k with _ | n
  · simp only [bumpCount, h, Option.isSome_none, Bool.false_eq_true, if_false]
    simp
  · simp only [bumpCount, h, Option.isSome_some, if_true]
    rw [List.map_map]
    refine List.map_congr_left fun kv _ => ?_
    obtain ⟨k', n'⟩ := kv
    by_cases hk : k' = k <;> simp [hk]

theorem nodupKeys_bumpCount (c : List (String × Nat)) (k : String)
    (h : (c.map Prod.fst).Nodup) : ((bumpCount c k).map Prod.fst).Nodup := by
  rw [keys_bumpCount]
  rcases hx : alookup c k with _ | n
  · simp only [hx, Option.isSome_none, Bool.false_eq_true, if_false]
    have : k ∉ c.map Prod.fst := (alookup_eq_none_iff c k).1 hx
    simp [List.nodup_append, h, this]
  · simpa [hx]

theorem mem_of_alookup_eq_some {β : Type} {c : List (String × β)} {k : String} {v : β}
    (h : alookup c k = some v) : (k, v) ∈ c := by
  induction c with
  | nil => simp [alookup] at h
  | cons kv rest ih =>
    obtain ⟨k', v'⟩ := kv
    by_cases hk : k' = k
    · subst hk
      simp [alookup] at h
      simp [h]
    · simp [alookup, hk] at h
      simp [ih h]

theorem alookup_of_mem_nodupKeys {β : Type} :
    ∀ {c : List (String × β)}, (c.map Prod.fst).Nodup →
      ∀ {k : String} {v : β}, (k, v) ∈ c → alookup c k = some v
  | [], _, _, _, h => by simp at h
  | (k', v') :: rest, hnd, k, v, h => by
      rw [List.map_cons, List.nodup_cons] at hnd
      rcases List.mem_cons.1 h with hh | hh
      · cases hh
        simp [alookup]
      · have hk : k' ≠ k := by
          intro heq
          subst heq
          have hmm : k' ∈ rest.map Prod.fst := List.mem_map_of_mem Prod.fst hh
          exact hnd.1 hmm
        simp only [alookup, hk, if_false]
        exact alookup_of_mem_nodupKeys hnd.2 hh

theorem nodup_count_eq (l : List String) (k : String) (h : l.Nodup) :
    l.count k = if k ∈ l then 1 else 0 := by
  by_cases hm : k ∈ l
  · simp [hm, List.count_eq_one_of_mem h hm]
  · simp [hm, List.count_eq_zero_of_not_mem hm]

theorem foldRequired_spec (xs : List Json) (c : List (String × Nat)) :
    (∀ k, (alookup (xs.foldl (fun c j =>
        match j with | .str s => bumpCount c s | _ => c) c) k).getD 0
        = (alookup c k).getD 0 + (stringsOf xs).count k)
    ∧ (∀ k, (alookup (xs.foldl (fun c j =>
        match j with | .str s => bumpCount c s | _ => c) c) k).isSome
        = ((alookup c k).isSome || (stringsOf xs).contains k))
    ∧ ((c.map Prod.fst).Nodup → (((xs.foldl (fun c j =>
        match j with | .str s => bumpCount c s | _ => c) c)).map Prod.fst).Nodup) := by
  induction xs generalizing c with
  | nil => simp [stringsOf]
  | cons j rest ih =>
    have hstrs : stringsOf (j :: rest)
        = (match j with | .str s => [s] | _ => []) ++ stringsOf rest := by
      rcases j <;> simp [stringsOf]
    rcases j with _ | b | n | s | elems | fields
    case str =>
      simp only [List.foldl_cons]
      obtain ⟨ihc, ihs, ihn⟩ := ih (bumpCount c s)
      refine ⟨?_, ?_, ?_⟩
      · intro k
        rw [ihc k, hstrs]
        by_cases hk : k = s
        · subst hk
          rw [alookup_bumpCount_self]
          simp [List.count_cons]
          omega
        · rw [alookup_bumpCount_ne c s k hk]
          simp [stringsOf, List.count_cons, hk]
      · intro k
        rw [ihs k, hstrs]
        by_cases hk : k = s
        · subst hk
          rw [alookup_bumpCount_self]
          simp
        · rw [alookup_bumpCount_ne c s k hk]
          simp [hk, Ne.symm hk]
      · intro hnd
        exact ihn (nodupKeys_bumpCount c s hnd)
    all_goals
      simp only [List.foldl_cons]
      obtain ⟨ihc, ihs, ihn⟩ := ih c
      refine ⟨?_, ?_, ?_⟩ <;>
        simp_all [hstrs]

theorem variantStep_objectVariants (st : MergeState) (v : Json) :
    (variantStep st v).objectVariants
      = if isObjectVariant v then st.objectVariants + 1 else st.objectVariants := by
  by_cases h1 : (v.truthy && (decide (jsTypeof v = "object"))) = true
  · rcases hp : v.getField "properties" with _ | props
    · simp [variantStep, isObjectVariant, h1, hp]
    · by_cases h2 : (props.truthy && (decide (jsTypeof props = "object"))) = true
      · simp [variantStep, isObjectVariant, h1, hp, h2]
      · simp [variantStep, isObjectVariant, h1, hp, h2]
  · simp [variantStep, isObjectVariant, h1]

theorem variantStep_requiredCounts (st : MergeState) (v : Json) :
    (variantStep st v).requiredCounts
      = if isObjectVariant v then
          (requiredRawOf v).foldl (fun c j =>
            match j with | .str s => bumpCount c s | _ => c) st.requiredCounts
        else st.requiredCounts := by
  by_cases h1 : (v.truthy && (decide (jsTypeof v = "object"))) = true
  · rcases hp : v.getField "properties" with _ | props
    · simp [variantStep, isObjectVariant, h1, hp]
    · by_cases h2 : (props.truthy && (decide (jsTypeof props = "object"))) = true
      · simp [variantStep, isObjectVariant, h1, hp, h2]
      · simp [variantStep, isObjectVariant, h1, hp, h2]
  · simp [variantStep, isObjectVariant, h1]

theorem foldVariants_invariant (variants : List Json) (st : MergeState)
    (hnodup : ∀ v ∈ variants, (requiredStrings v).Nodup)
    (hkeys : (st.requiredCounts.map Prod.fst).Nodup) :
    ((variants.foldl variantStep st).objectVariants
        = st.objectVariants
          + (variants.filter fun v => isObjectVariant v).length)
    ∧ (((variants.foldl variantStep st).requiredCounts.map Prod.fst).Nodup)
    ∧ (∀ k, (alookup (variants.foldl variantStep st).requiredCounts k).getD 0
        = (alookup st.requiredCounts k).getD 0
          + ((variants.filter fun v => isObjectVariant v).filter
              fun v => (requiredStrings v).contains k).length)
    ∧ (∀ k, (alookup (variants.foldl variantStep st).requiredCounts k).isSome = true ↔
        ((alookup st.requiredCounts k).isSome = true
         ∨ ∃ v ∈ variants, isObjectVariant v = true ∧ k ∈ requiredStrings v)) := by
  induction variants generalizing st with
  | nil => simpa using hkeys
  | cons v rest ih =>
    have hnodv : (requiredStrings v).Nodup := hnodup v (by simp)
    have hnodr : ∀ w ∈ rest, (requiredStrings w).Nodup :=
      fun w hw => hnodup w (by simp [hw])
    obtain ⟨fc, fs, fn⟩ := foldRequired_spec (requiredRawOf v) st.requiredCounts
    have hkeys' : ((variantStep st v).requiredCounts.map Prod.fst).Nodup := by
      rw [variantStep_requiredCounts]
      by_cases hobj : isObjectVariant v
      · simpa [hobj] using fn hkeys
      · simpa [hobj] using hkeys
    obtain ⟨ia, ib, ic, id_⟩ := ih (variantStep st v) hnodr hkeys'
    refine ⟨?_, by simpa using ib, ?_, ?_⟩
    · simp only [List.foldl_cons]
      rw [ia, variantStep_objectVariants]
      by_cases hobj : isObjectVariant v <;> simp [hobj] <;> omega
    · intro k
      simp only [List.foldl_cons]
      rw [ic k, variantStep_requiredCounts]
      by_cases hobj : isObjectVariant v
      · simp only [hobj, if_true]
        rw [fc k]
        have hcnt : List.count k (stringsOf (requiredRawOf v))
            = if k ∈ requiredStrings v then 1 else 0 :=
          nodup_count_eq _ k hnodv
        rw [hcnt]
        by_cases hk : k ∈ requiredStrings v <;>
          simp [hobj, hk, List.filter_cons] <;> omega
      · simp [hobj, List.filter_cons]
    · intro k
      simp only [List.foldl_cons]
      rw [id_ k, variantStep_requiredCounts]
      by_cases hobj : isObjectVariant v
      · simp only [hobj, if_true]
        rw [fs k]
        constructor
        · rintro (h | h)
          · rw [Bool.or_eq_true] at h
            rcases h with h2 | h2
            · exact Or.inl h2
            · exact Or.inr ⟨v, by simp, hobj, List.elem_iff.1 h2⟩
          · obtain ⟨w, hw, hwo, hwk⟩ := h
            exact Or.inr ⟨w, by simp [hw], hwo, hwk⟩
        · rintro (h | h)
          · exact Or.inl (by simp [h])
          · obtain ⟨w, hw, hwo, hwk⟩ := h
            rcases List.mem_cons.1 hw with rfl | hw'
            · refine Or.inl ?_
              have hc : (stringsOf (requiredRawOf w)).contains k = true :=
                List.elem_iff.2 hwk
              rw [Bool.or_eq_true]
              exact Or.inr hc
            · exact Or.inr ⟨w, hw', hwo, hwk⟩
      · simp only [hobj, if_false]
        constructor
        · rintro (h | h)
          · exact Or.inl h
          · obtain ⟨w, hw, hwo, hwk⟩ := h
            exact Or.inr ⟨w, by simp [hw], hwo, hwk⟩
        · rintro (h | h)
          · exact Or.inl h
          · obtain ⟨w, hw, hwo, hwk⟩ := h
            rcases List.mem_cons.1 hw with rfl | hw'
            · exact absurd hwo (by simpa using hobj)
            · exact Or.inr ⟨w, hw', hwo, hwk⟩

theorem alookup_strOptEntry {key k : String} (o : Option Json) (mk : String → Json)
    (hk : key ≠ k) :
    alookup (match o with | some (.str t) => [(key, mk t)] | _ => []) k = none := by
  rcases o with _ | j
  · rfl
  · rcases j <;> simp [alookup, hk]

theorem flattenUnion_getField_required (schema : Json) (variants : List Json) :
    (flattenUnion schema variants).getField "required"
      = match mergedRequiredOf schema (foldVariants variants) with
        | some l => if l.length > 0 then some (.arr (l.map Json.str)) else none
        | none => none := by
  unfold flattenUnion
  generalize schema.getField "title" = oT
  generalize schema.getField "description" = oD
  generalize schema.getField "properties" = oP
  generalize schema.getField "additionalProperties" = oA
  simp only [Json.getField]
  rw [alookup_append, alookup_append, alookup_append, alookup_append, alookup_append]
  rw [alookup_strOptEntry oT Json.str (by decide),
    alookup_strOptEntry oD Json.str (by decide)]
  rcases hm : mergedRequiredOf schema (foldVariants variants) with _ | l
  · simp [alookup]
  · by_cases hl : l.length > 0
    · simp [alookup, hl]
    · simp [alookup, hl]

theorem stringsOf_map_str (l : List String) : stringsOf (l.map Json.str) = l := by
  induction l with
  | nil => rfl
  | cons x rest ih => simp [stringsOf] at ih ⊢; exact ih

theorem requiredListOf_flattenUnion (schema : Json) (variants : List Json) :
    requiredListOf (flattenUnion schema variants)
      = (mergedRequiredOf schema (foldVariants variants)).getD [] := by
  unfold requiredListOf
  rw [flattenUnion_getField_required]
  rcases hm : mergedRequiredOf schema (foldVariants variants) with _ | l
  · rfl
  · by_cases hl : l.length > 0
    · simp [hl, stringsOf_map_str]
    · have hnil : l = [] := by
        rcases l with _ | ⟨x, xs⟩
        · rfl
        · simp at hl
      subst hnil
      simp

/-- C4 counterexample: a union schema declaring the (empty) top-level
required list `[]` does not keep it verbatim — the flattened schema gets
the intersection `["a"]` of the alternatives instead. -/
theorem requiredVerbatim_counterexample :
    exampleSchemaEmptyRequired.getField "required" = some (.arr [])
    ∧ (flattenUnion exampleSchemaEmptyRequired [exampleVariantRequiresA]).getField
        "required" = some (.arr [.str "a"]) := by
  constructor
  · decide
  · simp [flattenUnion, foldVariants, variantStep, mergedRequiredOf, baseRequiredOf,
      intersectRequired, stringsOf, bumpCount, replaceAssoc, mergePropertySchemas,
      exampleSchemaEmptyRequired, exampleVariantRequiresA, requiredRawOf,
      Json.getField, Json.entriesRecord, Json.truthy, jsTypeof, alookup,
      extractEnumValues, dedupFirst, pickMeta, mergeMetaKeys, addMeta]

/-- C4 (amended): if the union schema declares a top-level required list
with at least one string entry, the flattened schema keeps that list's
string entries verbatim; otherwise (no required list, or one without
string entries) the flattened required list contains exactly the names
required by every alternative that defines object properties — provided
each alternative's required list has no duplicate strings. -/
theorem flattenUnion_required_spec (schema : Json) (variants : List Json)
    (hnodup : ∀ v ∈ variants, (requiredStrings v).Nodup) :
    (∀ xs, schema.getField "required" = some (.arr xs) → stringsOf xs ≠ [] →
       requiredListOf (flattenUnion schema variants) = stringsOf xs)
    ∧ ((match schema.getField "required" with
        | some (.arr xs) => stringsOf xs = []
        | _ => True) →
       ∀ k, k ∈ requiredListOf (flattenUnion schema variants)
         ↔ ((∃ v ∈ variants, isObjectVariant v = true)
            ∧ ∀ v ∈ variants, isObjectVariant v = true → k ∈ requiredStrings v)) := by
  constructor
  · intro xs hx hne
    rw [requiredListOf_flattenUnion]
    have hbase : baseRequiredOf schema = some (stringsOf xs) := by
      unfold baseRequiredOf
      rw [hx]
    unfold mergedRequiredOf
    rw [hbase]
    simp [List.length_pos.2 hne]
  · intro hbase k
    have hmr : mergedRequiredOf schema (foldVariants variants)
        = intersectRequired (foldVariants variants) := by
      unfold mergedRequiredOf baseRequiredOf
      rcases hx : schema.getField "required" with _ | j
      · rfl
      · rcases j with _ | b | n | s | xs | fields <;> try rfl
        rw [hx] at hbase
        simp [hbase]
    rw [requiredListOf_flattenUnion, hmr]
    obtain ⟨ha, hb, hc, hd⟩ := foldVariants_invariant variants {} hnodup (by simp)
    have hfold : foldVariants variants = variants.foldl variantStep {} := rfl
    rcases hov : (variants.filter fun v => isObjectVariant v) with _ | ⟨w0, ws⟩
    · have hzero : (foldVariants variants).objectVariants = 0 := by
        rw [hfold, ha, hov]
        simp
      unfold intersectRequired
      rw [hzero]
      simp only [gt_iff_lt, Nat.lt_irrefl, if_false]
      constructor
      · intro h
        simp at h
      · rintro ⟨⟨v, hv, hvo⟩, -⟩
        have : v ∈ variants.filter fun v => isObjectVariant v :=
          List.mem_filter.2 ⟨hv, hvo⟩
        rw [hov] at this
        simp at this
    · have hpos : (foldVariants variants).objectVariants
          = (variants.filter fun v => isObjectVariant v).length := by
        rw [hfold, ha]
        simp
      have hNpos : 0 < (variants.filter fun v => isObjectVariant v).length := by
        rw [hov]
        simp
      unfold intersectRequired
      rw [hpos]
      simp only [hNpos, gt_iff_lt, if_true, Option.getD_some]
      rw [List.mem_filterMap]
      have hex : ∃ v ∈ variants, isObjectVariant v = true := by
        have : w0 ∈ variants.filter fun v => isObjectVariant v := by
          rw [hov]
          simp
        exact ⟨w0, (List.mem_filter.1 this).1, (List.mem_filter.1 this).2⟩
      constructor
      · rintro ⟨⟨k', c⟩, hkc, hif⟩
        have hc' : c = (variants.filter fun v => isObjectVariant v).length ∧ k' = k := by
          by_cases h : c = (variants.filter fun v => isObjectVariant v).length
          · simp [h] at hif
            exact ⟨h, hif⟩
          · simp [h] at hif
        obtain ⟨h1, h2⟩ := hc'
        rw [h1, h2] at hkc
        have hlook : alookup (foldVariants variants).requiredCounts k
            = some (variants.filter fun v => isObjectVariant v).length :=
          alookup_of_mem_nodupKeys hb hkc
        have hgd : (alookup (variants.foldl variantStep {} : MergeState).requiredCounts
            k).getD 0 = (variants.filter fun v => isObjectVariant v).length := by
          rw [← hfold, hlook]
          rfl
        rw [hc k] at hgd
        simp only [alookup, Nat.zero_add] at hgd
        have hall : ∀ v ∈ variants.filter (fun v => isObjectVariant v),
            (requiredStrings v).contains k = true :=
          List.filter_length_eq_length.1 (by
            simpa using hgd)
        refine ⟨hex, fun v hv hvo => ?_⟩
        exact List.elem_iff.1 (hall v (List.mem_filter.2 ⟨hv, hvo⟩))

      · rintro ⟨-, hall⟩
        have hall' : ∀ v ∈ variants.filter (fun v => isObjectVariant v),
            (requiredStrings v).contains k = true := by
          intro v hv
          obtain ⟨hv1, hv2⟩ := List.mem_filter.1 hv
          exact List.elem_iff.2 (hall v hv1 hv2)
        have hlen : ((variants.filter fun v => isObjectVariant v).filter
            fun v => (requiredStrings v).contains k).length
            = (variants.filter fun v => isObjectVariant v).length :=
          List.filter_length_eq_length.2 hall'
        have hgd : (alookup (variants.foldl variantStep {} : MergeState).requiredCounts
            k).getD 0 = (variants.filter fun v => isObjectVariant v).length := by
          rw [hc k]
          simpa [alookup] using hlen
        have hsome : (alookup (variants.foldl variantStep {} : MergeState).requiredCounts
            k).isSome = true := by
          rcases hlk : alookup (variants.foldl variantStep {} : MergeState).requiredCounts k
            with _ | c
          · rw [hlk] at hgd
            simp at hgd
            omega
          · rfl
        rcases hlk : alookup (variants.foldl variantStep {} : MergeState).requiredCounts k
          with _ | c
        · rw [hlk] at hsome
          simp at hsome
        · rw [hlk] at hgd
          simp at hgd
          refine ⟨(k, c), mem_of_alookup_eq_some (hfold ▸ hlk), ?_⟩
          simp [hgd]

/-- C4 witness: alternative A requiring `[a, b]` and alternative B
requiring `[a]` flatten to required = `[a]`. -/
theorem flattenUnion_required_spec_witness :
    "a" ∈ requiredListOf (flattenUnion
        (Json.obj [("anyOf", Json.arr [exampleVariantRequiresAB, exampleVariantRequiresA])])
        [exampleVariantRequiresAB, exampleVariantRequiresA])
    ∧ "b" ∉ requiredListOf (flattenUnion
        (Json.obj [("anyOf", Json.arr [exampleVariantRequiresAB, exampleVariantRequiresA])])
        [exampleVariantRequiresAB, exampleVariantRequiresA]) := by
  have h := (flattenUnion_required_spec
    (Json.obj [("anyOf", Json.arr [exampleVariantRequiresAB, exampleVariantRequiresA])])
    [exampleVariantRequiresAB, exampleVariantRequiresA] (by decide)).2 trivial
  constructor
  · exact (h "a").2 (by decide)
  · intro hb
    exact absurd ((h "b").1 hb) (by decide)

/-! ## C8: read-only sandbox excludes write/edit tools -/

theorem normalizeToolParameters_name (clean : Json → Json) (tool : AgentTool) :
    (normalizeToolParameters clean tool).name = tool.name := by
  unfold normalizeToolParameters
  repeat' (first | rfl | split | simp only [])

theorem wrapToolWithAbortSignal_name (tool : AgentTool) (s : Option AbortSignal) :
    (wrapToolWithAbortSignal tool s).name = tool.name := by
  unfold wrapToolWithAbortSignal
  rcases s with _ | sig
  · rfl
  · rcases h : tool.execute with _ | e <;> simp [h]

theorem mem_abortWrap {ab : Option AbortSignal} {l : List AgentTool} {t : AgentTool}
    (h : t ∈ (match ab with
      | some _ => l.map fun tool => wrapToolWithAbortSignal tool ab
      | none => l)) : ∃ u ∈ l, t.name = u.name := by
  rcases ab with _ | sig
  · exact ⟨t, h, rfl⟩
  · obtain ⟨u, hu, rfl⟩ := List.mem_map.1 h
    exact ⟨u, hu, wrapToolWithAbortSignal_name u _⟩

theorem mem_map_normalize {clean : Json → Json} {l : List AgentTool} {t : AgentTool}
    (h : t ∈ l.map (normalizeToolParameters clean)) : ∃ u ∈ l, t.name = u.name := by
  obtain ⟨u, hu, rfl⟩ := List.mem_map.1 h
  exact ⟨u, hu, normalizeToolParameters_name clean u⟩

theorem mem_policyFilter_match {p : Option SandboxToolPolicy} {l : List AgentTool}
    {t : AgentTool}
    (h : t ∈ (match p with | some _ => filterToolsByPolicy l p | none => l)) :
    t ∈ l := by
  rcases p with _ | p
  · exact h
  · exact List.mem_of_mem_filter h

theorem mem_sandboxFilter_match {sb : Option SandboxContext} {l : List AgentTool}
    {t : AgentTool}
    (h : t ∈ (match sb with | some s => filterToolsByPolicy l s.tools | none => l)) :
    t ∈ l := by
  rcases sb with _ | s
  · exact h
  · unfold filterToolsByPolicy at h
    rcases hp : s.tools with _ | p
    · simp only [hp] at h
      exact h
    · simp only [hp] at h
      exact List.mem_of_mem_filter h

theorem baseToolSubstitution_names (ext : Externals) (o : AssemblyOptions)
    (hrootT : sandboxRootTruthy o = true)
    (hread : ∀ r, (ext.createReadTool r).name ≠ "write"
      ∧ (ext.createReadTool r).name ≠ "edit")
    (tool t : AgentTool) (h : t ∈ baseToolSubstitution ext o tool) :
    t.name ≠ "write" ∧ t.name ≠ "edit" := by
  unfold baseToolSubstitution at h
  by_cases h1 : tool.name = ext.readToolName
  · simp only [h1, if_true, hrootT] at h
    simp at h
    subst h
    exact hread _
  · simp only [h1, if_false] at h
    by_cases h2 : (tool.name = "bash" || tool.name = "exec") = true
    · simp [h2] at h
    · simp only [h2, Bool.false_eq_true, if_false] at h
      by_cases h3 : tool.name = "write"
      · simp [h3, hrootT] at h
      · simp only [h3, if_false] at h
        by_cases h4 : tool.name = "edit"
        · simp [h4, hrootT] at h
        · simp only [h4, if_false] at h
          simp at h
          subst h
          exact ⟨h3, h4⟩

/-- C8: with an enabled read-only sandbox (and external collaborators
whose constructed tools are not named `write`/`edit` — true of the real
read/exec/process/provider/messaging tools), the assembled tool list
contains no tool named `write` and none named `edit`, whatever the
global, per-agent, sandbox or subagent allow/deny policies say. -/
theorem readOnlySandbox_no_write_edit (ext : Externals) (o : AssemblyOptions)
    (sb : SandboxContext) (hsb : o.sandbox = some sb) (hen : sb.enabled = true)
    (hro : sb.workspaceAccess = "ro") (hdir : sb.workspaceDir ≠ "")
    (hread : ∀ r, (ext.createReadTool r).name ≠ "write"
      ∧ (ext.createReadTool r).name ≠ "edit")
    (hexec : ∀ b, (ext.createExecTool b).name ≠ "write"
      ∧ (ext.createExecTool b).name ≠ "edit")
    (hproc : ext.processTool.name ≠ "write" ∧ ext.processTool.name ≠ "edit")
    (hextra : ∀ u ∈ ext.providerAgentTools ++ ext.clawdbotTools,
      u.name ≠ "write" ∧ u.name ≠ "edit") :
    ∀ t ∈ createClawdbotCodingTools ext o, t.name ≠ "write" ∧ t.name ≠ "edit" := by
  intro t ht
  have hact : activeSandbox o = some sb := by
    simp [activeSandbox, hsb, hen]
  have hrootT : sandboxRootTruthy o = true := by
    simp [sandboxRootTruthy, sandboxRootOf, hact, jsStrTruthy, hdir]
  have hwr : allowWorkspaceWritesOf o = false := by
    simp [allowWorkspaceWritesOf, hact, hro]
  have happ : applyPatchToolFor ext o = none := by
    unfold applyPatchToolFor
    simp [hrootT, hwr]
  simp only [createClawdbotCodingTools, happ, hrootT, hwr, Bool.true_and,
    Bool.not_true, Bool.false_eq_true, if_false, if_true, List.append_nil,
    List.nil_append] at ht
  obtain ⟨t4, ht4, hname4⟩ := mem_abortWrap ht
  obtain ⟨t3, ht3, hname3⟩ := mem_map_normalize ht4
  have ht2 := mem_policyFilter_match ht3
  have ht1 := mem_sandboxFilter_match ht2
  have ht0 := mem_policyFilter_match ht1
  rw [hname4, hname3]
  clear ht ht4 ht3 ht2 ht1 hname4 hname3 t t4
  simp only [List.append_nil, List.nil_append, List.mem_append, List.mem_cons,
    List.not_mem_nil, or_false, Bool.false_eq_true, if_false, or_assoc] at ht0
  rcases ht0 with hbase | ht0
  · obtain ⟨tool, -, hmem⟩ := List.mem_flatMap.1 hbase
    exact baseToolSubstitution_names ext o hrootT hread tool t3 hmem
  rcases ht0 with rfl | ht0
  · exact hexec _
  rcases ht0 with rfl | ht0
  · exact hproc
  rcases ht0 with hprov | hclaw
  · exact hextra t3 (List.mem_append.2 (Or.inl hprov))
  · exact hextra t3 (List.mem_append.2 (Or.inr hclaw))

/-- C8 witness: a concrete assembly with an enabled read-only sandbox
yields a list with no write and no edit tool. -/
theorem readOnlySandbox_no_write_edit_witness :
    (createClawdbotCodingTools exampleExternals exampleReadOnlySandboxOptions).all
      (fun t => !(t.name = "write") && !(t.name = "edit")) = true := by
  rw [List.all_eq_true]
  intro t ht
  obtain ⟨h1, h2⟩ := readOnlySandbox_no_write_edit exampleExternals
    exampleReadOnlySandboxOptions
    { enabled := true, workspaceDir := "/w", workspaceAccess := "ro" }
    rfl rfl rfl (by decide)
    (fun r => ⟨by simp [exampleExternals], by simp [exampleExternals]⟩)
    (fun b => ⟨by simp [exampleExternals], by simp [exampleExternals]⟩)
    ⟨by simp [exampleExternals], by simp [exampleExternals]⟩
    (fun u hu => by simp [exampleExternals] at hu)
    t ht
  simp [h1, h2]

end PiTools
